import Mathlib

/-!
Verification of the popup manager core (`src/desktop/popup/manager.rs`).

The development shallowly embeds the data model and the operations of the
popup manager: popup surfaces are identified by natural numbers, the
per-surface protocol state (role, declared parent, liveness, committed flag,
placement offset) is a function from surface ids to a record, popup trees are
rose trees of surface ids, and the manager's registries are plain lists.
Client-visible effects (the "done" notification of `xdg_popup.popup_done`
and the two protocol errors posted by `grab_popup`) are recorded in an
event list.
-/

namespace PopupSpec

/-- Per-surface protocol state, as read by the manager through `with_states`,
`get_role`, `IsAlive` and `PopupKind`: liveness of the underlying surface,
whether the surface carries `XDG_POPUP_ROLE`, the declared parent recorded in
`XdgPopupSurfaceData`, the `committed` flag of `XdgPopupSurfaceData`, and the
relative placement offset returned by `PopupKind::location`. -/
structure SurfaceState where
  alive : Bool
  isPopup : Bool
  parent : Option Nat
  committed : Bool
  location : Int × Int
deriving Repr, DecidableEq

/-- The ambient protocol state: what every surface id currently reports. -/
abbrev World := Nat → SurfaceState

/-- `PopupNode`: one popup surface plus its (exclusively owned) children,
in protocol creation order. -/
inductive PopupNode : Type where
  | mk (surface : Nat) (children : List PopupNode)

/-- The surface of a node. -/
def PopupNode.surface : PopupNode → Nat
  | .mk s _ => s

/-- The ordered children of a node. -/
def PopupNode.children : PopupNode → List PopupNode
  | .mk _ cs => cs

mutual

/-- All surface ids of a subtree, in pre-order. -/
def subtreeIds : PopupNode → List Nat
  | .mk s cs => s :: forestIds cs

/-- All surface ids of a forest, in pre-order. -/
def forestIds : List PopupNode → List Nat
  | [] => []
  | c :: rest => subtreeIds c ++ forestIds rest

end

mutual

/-- `PopupNode::send_done`: notify every child in reverse child order
(recursively), then the node itself.  Returns the list of surfaces that
receive `done`, in notification order. -/
def PopupNode.sendDone : PopupNode → List Nat
  | .mk s cs => sendDoneRev cs ++ [s]

/-- The `for child in self.children.iter().rev()` loop of `send_done`. -/
def sendDoneRev : List PopupNode → List Nat
  | [] => []
  | c :: rest => sendDoneRev rest ++ PopupNode.sendDone c

end

mutual

/-- `PopupNode::dismiss_popup`: if this node is the target, send `done`
(bottom-up) and report `true` so the caller detaches the whole subtree;
otherwise run the child loop.  Returns the updated node, the `done`
notifications emitted, and the boolean result. -/
def dismissNode (t : Nat) : PopupNode → PopupNode × List Nat × Bool
  | .mk s cs =>
    if s = t then (.mk s cs, PopupNode.sendDone (.mk s cs), true)
    else
      let r := dismissChildren t cs
      (.mk s r.1, r.2, false)

/-- The `while i < self.children.len()` loop shared by
`PopupNode::dismiss_popup` and `PopupTree::dismiss_popup`: a child that
reports `true` is removed from the child list and the loop stops; otherwise
the (possibly internally updated) child is kept and the loop continues. -/
def dismissChildren (t : Nat) : List PopupNode → List PopupNode × List Nat
  | [] => ([], [])
  | c :: rest =>
    let rc := dismissNode t c
    if rc.2.2 then (rest, rc.2.1)
    else
      let rr := dismissChildren t rest
      (rc.1 :: rr.1, rc.2.1 ++ rr.2)

end

/-- `PopupTree::dismiss_popup` on the root list of a tree. -/
def treeDismiss (t : Nat) (roots : List PopupNode) : List PopupNode × List Nat :=
  dismissChildren t roots

mutual

/-- Pre-order first-match search for the node with a given surface id
(specification device used to state the claims). -/
def findNodeN (t : Nat) : PopupNode → Option PopupNode
  | .mk s cs => if s = t then some (.mk s cs) else findNodeF t cs

/-- Pre-order first-match search over a forest. -/
def findNodeF (t : Nat) : List PopupNode → Option PopupNode
  | [] => none
  | c :: rest =>
    match findNodeN t c with
    | some n => some n
    | none => findNodeF t rest

end

/-- Occurrence of a node inside a subtree (reflexive-transitive child
descent). -/
inductive IsNode : PopupNode → PopupNode → Prop where
  | refl (n : PopupNode) : IsNode n n
  | child {n c : PopupNode} {s : Nat} {cs : List PopupNode} :
      c ∈ cs → IsNode n c → IsNode n (.mk s cs)

mutual

/-- `PopupNode::insert`: if this node's surface equals the popup's declared
parent, append the popup as a new leaf child and report `true`; otherwise try
each child in order, stopping at the first success. -/
def insertN (p par : Nat) : PopupNode → PopupNode × Bool
  | .mk s cs =>
    if s = par then (.mk s (cs ++ [.mk p []]), true)
    else
      let r := insertF p par cs
      (.mk s r.1, r.2)

/-- The child loop of `PopupNode::insert` (also the root loop of
`PopupTree::insert`). -/
def insertF (p par : Nat) : List PopupNode → List PopupNode × Bool
  | [] => ([], false)
  | c :: rest =>
    let rc := insertN p par c
    if rc.2 then (rc.1 :: rest, true)
    else
      let rr := insertF p par rest
      (rc.1 :: rr.1, rr.2)

end

/-- `PopupTree::insert`: try every root; if none accepts the popup, push it
as a new root.  `par` is the value of `popup.parent().unwrap()`, which the
source reads inside `PopupNode::insert`. -/
def treeInsert (p par : Nat) (roots : List PopupNode) : List PopupNode :=
  let r := insertF p par roots
  if r.2 then r.1 else r.1 ++ [.mk p []]

/-- `PopupTree::insert` with the parent read from the ambient state, as
`popup.parent().unwrap()` does.  The source unwraps: on every call path the
parent is present (root resolution already required it), so the `none` branch
is unreachable there; it is mapped to the identity here. -/
def treeInsertW (w : World) (p : Nat) (roots : List PopupNode) : List PopupNode :=
  match (w p).parent with
  | some par => treeInsert p par roots
  | none => roots

mutual

/-- Modelled from the spec: insertion as §4.2 words it — "depth-first search
over existing nodes for one whose surface equals the handle's declared
parent; insert as a new leaf child of the first match found (pre-order,
first match wins)".  Returns `none` when no node of the subtree matches. -/
def specInsertN (p par : Nat) : PopupNode → Option PopupNode
  | .mk s cs =>
    if s = par then some (.mk s (cs ++ [.mk p []]))
    else (specInsertF p par cs).map (fun cs2 => .mk s cs2)

/-- Modelled from the spec: pre-order first-match insertion over a forest. -/
def specInsertF (p par : Nat) : List PopupNode → Option (List PopupNode)
  | [] => none
  | c :: rest =>
    match specInsertN p par c with
    | some c2 => some (c2 :: rest)
    | none => (specInsertF p par rest).map (fun r2 => c :: r2)

end

/-- Modelled from the spec: "If no existing node matches, the handle becomes
a new root of the tree". -/
def specInsert (p par : Nat) (roots : List PopupNode) : List PopupNode :=
  match specInsertF p par roots with
  | some r => r
  | none => roots ++ [.mk p []]

mutual

/-- `PopupNode::iter_popups_relative_to`: emit this node with
`loc + self.surface.location()`, then every child relative to that point
(pre-order). -/
def iterN (w : World) (loc : Int × Int) : PopupNode → List (Nat × (Int × Int))
  | .mk s cs =>
    let rel := loc + (w s).location
    (s, rel) :: iterF w rel cs

/-- The `flat_map` over children of `iter_popups_relative_to`. -/
def iterF (w : World) (loc : Int × Int) : List PopupNode → List (Nat × (Int × Int))
  | [] => []
  | c :: rest => iterN w loc c ++ iterF w loc rest

end

/-- `PopupTree::iter_popups`: every root iterated relative to `(0, 0)`. -/
def treeIter (w : World) (roots : List PopupNode) : List (Nat × (Int × Int)) :=
  iterF w (0, 0) roots

mutual

/-- `PopupNode::cleanup`: clean every child recursively, then retain only
children whose surface is alive (a dead child is dropped together with its
whole subtree, live descendants included). -/
def cleanupN (w : World) : PopupNode → PopupNode
  | .mk s cs => .mk s ((cleanupF w cs).filter (fun c => (w c.surface).alive))

/-- The recursive child pass of `PopupNode::cleanup`. -/
def cleanupF (w : World) : List PopupNode → List PopupNode
  | [] => []
  | c :: rest => cleanupN w c :: cleanupF w rest

end

/-- `PopupTree::cleanup`: clean every root, then retain live roots. -/
def treeCleanup (w : World) (roots : List PopupNode) : List PopupNode :=
  (cleanupF w roots).filter (fun c => (w c.surface).alive)

mutual

/-- The surfaces of a subtree whose whole ancestor path (node included)
is alive: exactly what survives `PopupNode::cleanup`. -/
def liveIdsN (w : World) : PopupNode → List Nat
  | .mk s cs => if (w s).alive then s :: liveIdsF w cs else []

/-- `liveIdsN` over a forest. -/
def liveIdsF (w : World) : List PopupNode → List Nat
  | [] => []
  | c :: rest => liveIdsN w c ++ liveIdsF w rest

end

/-- A root-to-node path inside one subtree: the list of own placement
offsets read along the descent, ending at the node with the given surface. -/
inductive PathTo (w : World) : PopupNode → List (Int × Int) → Nat → Prop where
  | here (s : Nat) (cs : List PopupNode) : PathTo w (.mk s cs) [(w s).location] s
  | there {s : Nat} {cs : List PopupNode} {c : PopupNode} {path : List (Int × Int)} {p : Nat} :
      c ∈ cs → PathTo w c path p → PathTo w (.mk s cs) ((w s).location :: path) p

/-- Error kinds of `grab_popup` (`PopupGrabError`); `deadResource` also
stands for the `DeadResource` propagated from root resolution. -/
inductive PopupGrabError : Type where
  | deadResource
  | noPopup
  | invalidGrab
  | parentDismissed
  | notTheTopmostPopup
deriving Repr, DecidableEq

/-- One entry of a grab chain: a grabbed popup surface and the serial that
acquired it. -/
structure GrabEntry where
  popup : Nat
  serial : Nat
deriving Repr, DecidableEq

/-- Modelled from the spec: the seat's `PopupGrabInner` grab chain (the
source for this collaborator is outside `src/`; only its contract in §4.3
and the calls in `manager.rs` are given).  State: the ordered chain of
(popup, serial) pairs, most recent last. -/
structure GrabChainState where
  grabs : List GrabEntry
deriving Repr, DecidableEq

/-- Modelled from the spec: a chain is active when it currently holds
grabs ("empty/no live grabs" is the inactive case, §4.1 step 4). -/
def GrabChainState.active (c : GrabChainState) : Bool :=
  !c.grabs.isEmpty

/-- Modelled from the spec: `alive`, the liveness the manager's `cleanup`
consults before dropping a chain from its list. -/
def GrabChainState.alive (c : GrabChainState) : Bool :=
  !c.grabs.isEmpty

/-- Modelled from the spec: the chain's own cleanup hook drops entries whose
popup surface has died. -/
def GrabChainState.cleanup (w : World) (c : GrabChainState) : GrabChainState :=
  ⟨c.grabs.filter (fun e => (w e.popup).alive)⟩

/-- Modelled from the spec (§4.3, §8): `PopupGrabInner::grab`.  A popup with
no declared parent cannot extend any chain (`ParentDismissed`); on a
non-empty chain the popup's parent must be the current tail, else
`NotTheTopmostPopup`; on an empty chain the parent must not itself be a
popup (a popup parent means the intended ancestor chain is broken:
`ParentDismissed`); otherwise the chain is extended and the previous tail's
serial (if any) is returned. -/
def GrabChainState.grab (w : World) (c : GrabChainState) (popup serial : Nat) :
    GrabChainState × Except PopupGrabError (Option Nat) :=
  match (w popup).parent with
  | none => (c, .error .parentDismissed)
  | some par =>
    match c.grabs.getLast? with
    | some tail =>
      if tail.popup = par then
        (⟨c.grabs ++ [⟨popup, serial⟩]⟩, .ok (some tail.serial))
      else (c, .error .notTheTopmostPopup)
    | none =>
      if (w par).isPopup then (c, .error .parentDismissed)
      else (⟨[⟨popup, serial⟩]⟩, .ok none)

/-- Client-visible side effects: `done` notifications and the two protocol
errors posted by `grab_popup`. -/
inductive Event : Type where
  | done (surface : Nat)
  | errAlreadyMapped (surface : Nat)
  | errNotTopmost (surface : Nat)
deriving Repr, DecidableEq

/-- The grab object returned on success (`PopupGrab::new` without the
keyboard-capability handle, which is outside this core). -/
structure GrabOk where
  chain : Nat
  popup : Nat
  serial : Nat
  previousSerial : Option Nat
deriving Repr, DecidableEq

/-- Pointwise function update (for the stores below). -/
def upd {α : Type} (f : Nat → α) (k : Nat) (v : α) : Nat → α :=
  fun x => if x = k then v else f x

/-- `Vec::swap_remove`: replace index `i` with the last element and pop. -/
def swapRemove {α : Type} (l : List α) (i : Nat) : List α :=
  match l.getLast? with
  | none => l
  | some last => (l.set i last).dropLast

/-- The whole reachable state of one `PopupManager` together with the shared
structures it aliases: the ambient per-surface protocol state, the
per-root-surface `PopupTree` attachment (`data_map`), a store resolving
shared tree handles, a store resolving shared grab-chain handles, the single
modelled seat's user-data chain slot, the manager's three registries
(`unmapped_popups`, `popup_trees`, `popup_grabs` as handle lists), and the
accumulated client-visible events. -/
structure Sys where
  surf : World
  treeAttach : Nat → Option Nat
  treeStore : Nat → List PopupNode
  nextTreeId : Nat
  chainStore : Nat → GrabChainState
  nextChainId : Nat
  seatChain : Option Nat
  unmapped : List Nat
  mgrTrees : List Nat
  mgrChains : List Nat
  events : List Event

/-- `find_popup_root_surface`: start from the declared parent (missing
parent is `DeadResource`, modelled as `none`) and walk upward while the
ancestor carries the popup role.  `fuel` bounds the walk: the source's loop
is unbounded only on a cyclic parent chain, which the spec treats as an
external invariant; a contract-violating missing intermediate parent (the
source unwraps there) is also `none`. -/
def rootWalk (w : World) : Nat → Nat → Option Nat
  | 0, _ => none
  | fuel + 1, s =>
    if (w s).isPopup then
      match (w s).parent with
      | some p => rootWalk w fuel p
      | none => none
    else some s

/-- `find_popup_root_surface` proper. -/
def findPopupRootSurface (w : World) (fuel : Nat) (popup : Nat) : Option Nat :=
  ((w popup).parent).bind (rootWalk w fuel)

/-- `PopupManager::add_popup`: resolve the root, obtain or create the
attached tree (pushing a freshly created tree onto `popup_trees`, and
re-pushing any attached tree that is not alive), then insert the popup. -/
def addPopup (fuel : Nat) (s : Sys) (p : Nat) : Sys × Except Unit Unit :=
  match findPopupRootSurface s.surf fuel p with
  | none => (s, .error ())
  | some root =>
    let s1tid : Sys × Nat :=
      match s.treeAttach root with
      | none =>
        let tid := s.nextTreeId
        ({ s with
            treeAttach := upd s.treeAttach root (some tid)
            treeStore := upd s.treeStore tid []
            nextTreeId := s.nextTreeId + 1
            mgrTrees := s.mgrTrees ++ [tid] }, tid)
      | some tid => (s, tid)
    let s1 := s1tid.1
    let tid := s1tid.2
    let s2 :=
      if (s1.treeStore tid).isEmpty then { s1 with mgrTrees := s1.mgrTrees ++ [tid] }
      else s1
    ({ s2 with treeStore := upd s2.treeStore tid (treeInsertW s2.surf p (s2.treeStore tid)) },
      .ok ())

/-- `PopupManager::track_popup`: attach immediately when a parent is
declared, else stage in the unmapped list. -/
def trackPopup (fuel : Nat) (s : Sys) (p : Nat) : Sys × Except Unit Unit :=
  if (s.surf p).parent.isSome then addPopup fuel s p
  else ({ s with unmapped := s.unmapped ++ [p] }, .ok ())

/-- `PopupManager::commit`: on a popup-role surface found in the unmapped
list, `swap_remove` it and attach it, ignoring any attachment failure. -/
def commitOp (fuel : Nat) (s : Sys) (surf : Nat) : Sys :=
  if (s.surf surf).isPopup then
    match s.unmapped.findIdx? (fun p => p = surf) with
    | some i => (addPopup fuel { s with unmapped := swapRemove s.unmapped i } surf).1
    | none => s
  else s

/-- `PopupManager::find_popup`: search the unmapped list first, then the
flattened contents of every registered tree, in order. -/
def findPopup (s : Sys) (surface : Nat) : Option Nat :=
  match s.unmapped.find? (fun p => p = surface) with
  | some p => some p
  | none =>
    ((s.mgrTrees.flatMap (fun tid => treeIter s.surf (s.treeStore tid))).find?
        (fun e => e.1 = surface)).map (fun e => e.1)

/-- `PopupManager::popups_for_surface`: the attached tree's iteration with
offsets (empty when no tree is attached). -/
def popupsForSurface (s : Sys) (surface : Nat) : List (Nat × (Int × Int)) :=
  match s.treeAttach surface with
  | some tid => treeIter s.surf (s.treeStore tid)
  | none => []

/-- `PopupManager::dismiss_popup`: `Err(DeadResource)` on a dead root
surface; otherwise run the tree's dismiss cascade on the attached tree, if
any, appending the emitted `done` notifications. -/
def dismissPopupOp (s : Sys) (root popup : Nat) : Sys × Except Unit Unit :=
  if !(s.surf root).alive then (s, .error ())
  else
    match s.treeAttach root with
    | none => (s, .ok ())
    | some tid =>
      let d := treeDismiss popup (s.treeStore tid)
      ({ s with
          treeStore := upd s.treeStore tid d.1
          events := s.events ++ d.2.map Event.done }, .ok ())

/-- `PopupManager::cleanup`: run each registered chain's cleanup hook and
retain live chains; clean each registered tree and retain live (non-empty)
trees; retain live unmapped popups. -/
def cleanupOp (s : Sys) : Sys :=
  let cs1 : Nat → GrabChainState := fun cid =>
    if cid ∈ s.mgrChains then GrabChainState.cleanup s.surf (s.chainStore cid)
    else s.chainStore cid
  let ts1 : Nat → List PopupNode := fun tid =>
    if tid ∈ s.mgrTrees then treeCleanup s.surf (s.treeStore tid) else s.treeStore tid
  { s with
    chainStore := cs1
    mgrChains := s.mgrChains.filter (fun cid => (cs1 cid).alive)
    treeStore := ts1
    mgrTrees := s.mgrTrees.filter (fun tid => !(ts1 tid).isEmpty)
    unmapped := s.unmapped.filter (fun p => (s.surf p).alive) }

/-- `PopupManager::grab_popup`: role check (`NoPopup`), root resolution
(`DeadResource`), committed check (`InvalidGrab`, posting "already mapped"),
lazily create and, when inactive, register the seat's chain, then attempt the
chain grab; `ParentDismissed` dismisses the popup at its root as a side
effect, `NotTheTopmostPopup` posts "not the topmost popup". -/
def grabPopup (fuel : Nat) (s : Sys) (focus : Option Nat) (serial : Nat) :
    Sys × Except PopupGrabError GrabOk :=
  match focus with
  | none => (s, .error .noPopup)
  | some popup =>
    match findPopupRootSurface s.surf fuel popup with
    | none => (s, .error .deadResource)
    | some root =>
      if (s.surf popup).committed then
        ({ s with events := s.events ++ [Event.errAlreadyMapped popup] }, .error .invalidGrab)
      else
        let s1cid : Sys × Nat :=
          match s.seatChain with
          | some cid => (s, cid)
          | none =>
            ({ s with
                chainStore := upd s.chainStore s.nextChainId ⟨[]⟩
                seatChain := some s.nextChainId
                nextChainId := s.nextChainId + 1 }, s.nextChainId)
        let s1 := s1cid.1
        let cid := s1cid.2
        let s2 :=
          if !(s1.chainStore cid).active then { s1 with mgrChains := s1.mgrChains ++ [cid] }
          else s1
        let g := GrabChainState.grab s2.surf (s2.chainStore cid) popup serial
        let s3 := { s2 with chainStore := upd s2.chainStore cid g.1 }
        match g.2 with
        | .ok prev => (s3, .ok ⟨cid, popup, serial, prev⟩)
        | .error .parentDismissed => ((dismissPopupOp s3 root popup).1, .error .parentDismissed)
        | .error .notTheTopmostPopup =>
          ({ s3 with events := s3.events ++ [Event.errNotTopmost popup] },
            .error .notTheTopmostPopup)
        | .error e => (s3, .error e)

/-- A system with a dead root surface, used to exhibit the behaviour of
`dismiss_popup` on a dead root. -/
def c5DeadSys : Sys where
  surf := fun _ => ⟨false, false, none, false, (0, 0)⟩
  treeAttach := fun _ => none
  treeStore := fun _ => []
  nextTreeId := 0
  chainStore := fun _ => ⟨[]⟩
  nextChainId := 0
  seatChain := none
  unmapped := []
  mgrTrees := []
  mgrChains := []
  events := []

/-- Concrete system for the C8 witness: live unmapped popup 1, dead unmapped
popup 3, a registered tree whose root 2 is alive but whose child 3 is dead
while 3's own child 4 is still alive, and a registered chain holding only the
dead popup 3. -/
def c8Ex : Sys where
  surf := fun i =>
    if i = 3 then ⟨false, true, some 2, false, (0, 0)⟩
    else ⟨true, i ≠ 2, if i = 4 then some 3 else if i = 1 then none else none, false, (0, 0)⟩
  treeAttach := fun i => if i = 2 then some 0 else none
  treeStore := fun i => if i = 0 then [.mk 2 [.mk 3 [.mk 4 []]]] else []
  nextTreeId := 1
  chainStore := fun _ => ⟨[⟨3, 7⟩]⟩
  nextChainId := 1
  seatChain := some 0
  unmapped := [1, 3]
  mgrTrees := [0]
  mgrChains := [0]
  events := []

/-- Change exactly one surface's own placement offset in the ambient state. -/
def updLoc (w : World) (t : Nat) (nl : Int × Int) : World :=
  fun i => if i = t then { w i with location := nl } else w i

/-- Shift the reported offset of every entry whose popup lies in `S` by `d`,
leaving other entries untouched. -/
def shiftIn (S : List Nat) (d : Int × Int) (l : List (Nat × (Int × Int))) :
    List (Nat × (Int × Int)) :=
  l.map (fun e => if e.1 ∈ S then (e.1, e.2 + d) else e)

/-- System for the C2 witness: popup 1 (parent toplevel 0) already
committed. -/
def c2Ex : Sys where
  surf := fun i =>
    if i = 1 then ⟨true, true, some 0, true, (0, 0)⟩
    else ⟨true, false, none, false, (0, 0)⟩
  treeAttach := fun _ => none
  treeStore := fun _ => []
  nextTreeId := 0
  chainStore := fun _ => ⟨[]⟩
  nextChainId := 0
  seatChain := none
  unmapped := []
  mgrTrees := []
  mgrChains := []
  events := []

/-- System for the C3 witness: toplevel 0, sibling popups 1 and 2, the
seat's chain currently holds a grab on popup 1. -/
def c3Ex : Sys where
  surf := fun i =>
    if i = 0 then ⟨true, false, none, false, (0, 0)⟩
    else ⟨true, true, some 0, false, (0, 0)⟩
  treeAttach := fun i => if i = 0 then some 0 else none
  treeStore := fun i => if i = 0 then [.mk 1 [], .mk 2 []] else []
  nextTreeId := 1
  chainStore := fun _ => ⟨[⟨1, 1⟩]⟩
  nextChainId := 1
  seatChain := some 0
  unmapped := []
  mgrTrees := [0]
  mgrChains := [0]
  events := []

/-- System for the C4 witness: toplevel 0, popup 1 (parent 0) with nested
popup 2 (parent 1) in the attached tree; the seat has no chain yet, and
popup 2's parent carries the popup role, so a grab on 2 with an empty chain
is rejected as `ParentDismissed`. -/
def c4Ex : Sys where
  surf := fun i =>
    if i = 0 then ⟨true, false, none, false, (0, 0)⟩
    else if i = 1 then ⟨true, true, some 0, false, (0, 0)⟩
    else ⟨true, true, some 1, false, (0, 0)⟩
  treeAttach := fun i => if i = 0 then some 0 else none
  treeStore := fun i => if i = 0 then [.mk 1 [.mk 2 []]] else []
  nextTreeId := 1
  chainStore := fun _ => ⟨[]⟩
  nextChainId := 0
  seatChain := none
  unmapped := []
  mgrTrees := [0]
  mgrChains := []
  events := []

/-- System for the C10 witness: toplevel 0, popup 1 with declared parent 0,
no tree attached anywhere yet. -/
def c10Ex : Sys where
  surf := fun i =>
    if i = 1 then ⟨true, true, some 0, false, (3, 4)⟩
    else ⟨true, false, none, false, (0, 0)⟩
  treeAttach := fun _ => none
  treeStore := fun _ => []
  nextTreeId := 0
  chainStore := fun _ => ⟨[]⟩
  nextChainId := 0
  seatChain := none
  unmapped := []
  mgrTrees := []
  mgrChains := []
  events := []

/-- The two manager calls driven by the protocol layer. -/
inductive POp : Type where
  | track (p : Nat)
  | commit (surf : Nat)
deriving Repr, DecidableEq

/-- Apply one protocol-layer call (`track_popup` results are discarded by
the callers modelled here, as `commit` itself does). -/
def applyOp (fuel : Nat) (s : Sys) : POp → Sys
  | .track p => (trackPopup fuel s p).1
  | .commit c => commitOp fuel s c

/-- Run a call history. -/
def execOps (fuel : Nat) : Sys → List POp → Sys
  | s, [] => s
  | s, op :: rest => execOps fuel (applyOp fuel s op) rest

/-- The popups handed to `track_popup` during a history. -/
def trackedPopups : List POp → List Nat
  | [] => []
  | .track p :: rest => p :: trackedPopups rest
  | .commit _ :: rest => trackedPopups rest

/-- A manager fresh out of `PopupManager::new`, over a given ambient
protocol state. -/
def initSys (w : World) : Sys where
  surf := w
  treeAttach := fun _ => none
  treeStore := fun _ => []
  nextTreeId := 0
  chainStore := fun _ => ⟨[]⟩
  nextChainId := 0
  seatChain := none
  unmapped := []
  mgrTrees := []
  mgrChains := []
  events := []

/-- The bookkeeping invariant of the tree registry: ids at or above the
allocation counter are untouched, attachments and registered ids are below
it, and an attached non-empty tree is registered. -/
def TreeInv (s : Sys) : Prop :=
  (∀ tid, s.nextTreeId ≤ tid → s.treeStore tid = []) ∧
  (∀ root tid, s.treeAttach root = some tid → tid < s.nextTreeId) ∧
  (∀ tid ∈ s.mgrTrees, tid < s.nextTreeId) ∧
  (∀ root tid, s.treeAttach root = some tid → s.treeStore tid ≠ [] → tid ∈ s.mgrTrees)

/-- A popup the manager can reach: staged in the unmapped list or present in
a registered tree. -/
def Present (s : Sys) (p : Nat) : Prop :=
  p ∈ s.unmapped ∨ ∃ tid ∈ s.mgrTrees, p ∈ forestIds (s.treeStore tid)

/-- Ambient state for the C9 counterexample: popup 1 is already dead but
has a declared parent 0 (a live toplevel). -/
def c9DeadW : World := fun i =>
  if i = 1 then ⟨false, true, some 0, false, (0, 0)⟩
  else ⟨true, false, none, false, (0, 0)⟩

/-- Ambient state for the C9 witness: live toplevel 0, live popups with
parent 0. -/
def c9LiveW : World := fun i =>
  if i = 0 then ⟨true, false, none, false, (0, 0)⟩
  else ⟨true, true, some 0, false, (0, 0)⟩

/-! ### Basic structural lemmas -/


@[simp]

theorem PopupNode.surface_mk (s : Nat) (cs : List PopupNode) :
    (PopupNode.mk s cs).surface = s := rfl

@[simp]

theorem PopupNode.children_mk (s : Nat) (cs : List PopupNode) :
    (PopupNode.mk s cs).children = cs := rfl

theorem forestIds_append (a b : List PopupNode) :
    forestIds (a ++ b) = forestIds a ++ forestIds b := by
  induction a with
  | nil => simp [forestIds]
  | cons c rest ih => simp [forestIds, ih]

theorem subtree_mem_forest {c : PopupNode} {cs : List PopupNode} (hc : c ∈ cs)
    {x : Nat} (hx : x ∈ subtreeIds c) : x ∈ forestIds cs := by
  induction cs with
  | nil => cases hc
  | cons a rest ih =>
    rcases List.mem_cons.mp hc with h | h
    · subst h; simp [forestIds]; exact Or.inl hx
    · simp [forestIds]; exact Or.inr (by
        have := ih h
        simpa using this)

theorem IsNode.subtreeIds_subset {n m : PopupNode} (h : IsNode n m) :
    ∀ x ∈ subtreeIds n, x ∈ subtreeIds m := by
  induction h with
  | refl => exact fun x hx => hx
  | @child c s cs hc _ ih =>
    intro x hx
    simp [subtreeIds]
    exact Or.inr (subtree_mem_forest hc (ih x hx))

/-! ### The `send_done` cascade -/


theorem sendDoneRev_block {c : PopupNode} {cs : List PopupNode} (hc : c ∈ cs) :
    ∃ P Q, sendDoneRev cs = P ++ PopupNode.sendDone c ++ Q := by
  induction cs with
  | nil => cases hc
  | cons a rest ih =>
    rcases List.mem_cons.mp hc with h | h
    · subst h; exact ⟨sendDoneRev rest, [], by simp [sendDoneRev]⟩
    · rcases ih h with ⟨P, Q, hPQ⟩
      exact ⟨P, Q ++ PopupNode.sendDone a, by simp [sendDoneRev, hPQ]⟩

theorem IsNode.sendDone_block {m n : PopupNode} (h : IsNode m n) :
    ∃ A B, PopupNode.sendDone n = A ++ PopupNode.sendDone m ++ B := by
  induction h with
  | refl => exact ⟨[], [], by simp⟩
  | @child c s cs hc _ ih =>
    rcases ih with ⟨A, B, hAB⟩
    rcases sendDoneRev_block hc with ⟨P, Q, hPQ⟩
    exact ⟨P ++ A, B ++ (Q ++ [s]), by simp [PopupNode.sendDone, hPQ, hAB]⟩

mutual

theorem sendDone_perm : ∀ m : PopupNode, (PopupNode.sendDone m).Perm (subtreeIds m)
  | .mk s cs => by
    simp only [PopupNode.sendDone, subtreeIds]
    exact List.perm_append_comm.trans ((sendDoneRev_perm cs).cons s)

theorem sendDoneRev_perm : ∀ cs : List PopupNode, (sendDoneRev cs).Perm (forestIds cs)
  | [] => List.Perm.refl _
  | c :: rest => by
    simp only [sendDoneRev, forestIds]
    exact List.perm_append_comm.trans ((sendDone_perm c).append (sendDoneRev_perm rest))

end

/-! ### Search lemmas -/


theorem findNodeF_eq_none (t : Nat) :
    ∀ cs : List PopupNode, findNodeF t cs = none → t ∉ forestIds cs
  | [], _ => by simp [forestIds]
  | .mk s ccs :: rest, h => by
    simp only [findNodeF, findNodeN] at h
    by_cases hs : s = t
    · simp [hs] at h
    · simp only [if_neg hs] at h
      rcases hmatch : findNodeF t ccs with _ | n
      · rw [hmatch] at h
        simp only [forestIds, subtreeIds, List.mem_append, List.mem_cons]
        push_neg
        refine ⟨⟨fun he => hs he.symm, findNodeF_eq_none t ccs hmatch⟩,
          findNodeF_eq_none t rest ?_⟩
        simpa [hmatch] using h
      · rw [hmatch] at h; cases h

theorem findNodeF_some (t : Nat) :
    ∀ cs n, findNodeF t cs = some n → (∃ c ∈ cs, IsNode n c) ∧ n.surface = t
  | [], n, h => by simp [findNodeF] at h
  | .mk s ccs :: rest, n, h => by
    simp only [findNodeF, findNodeN] at h
    by_cases hs : s = t
    · simp only [if_pos hs] at h
      cases h
      exact ⟨⟨.mk s ccs, List.mem_cons_self _ _, IsNode.refl _⟩, hs⟩
    · simp only [if_neg hs] at h
      rcases hmatch : findNodeF t ccs with _ | n'
      · rw [hmatch] at h
        rcases findNodeF_some t rest n h with ⟨⟨c, hc, hn⟩, hsurf⟩
        exact ⟨⟨c, List.mem_cons_of_mem _ hc, hn⟩, hsurf⟩
      · rw [hmatch] at h
        cases h
        rcases findNodeF_some t ccs n hmatch with ⟨⟨c, hc, hn⟩, hsurf⟩
        exact ⟨⟨.mk s ccs, List.mem_cons_self _ _, IsNode.child hc hn⟩, hsurf⟩

theorem findNodeF_mem {t : Nat} {cs : List PopupNode} {n : PopupNode}
    (h : findNodeF t cs = some n) : t ∈ forestIds cs := by
  rcases findNodeF_some t cs n h with ⟨⟨c, hc, hn⟩, hsurf⟩
  refine subtree_mem_forest hc (hn.subtreeIds_subset t ?_)
  cases n with
  | mk s2 cs2 => simp [subtreeIds] at hsurf ⊢; exact Or.inl hsurf.symm

theorem findNodeF_sub {t : Nat} {cs : List PopupNode} {n : PopupNode}
    (h : findNodeF t cs = some n) : ∀ x ∈ subtreeIds n, x ∈ forestIds cs := by
  rcases findNodeF_some t cs n h with ⟨⟨c, hc, hn⟩, _⟩
  exact fun x hx => subtree_mem_forest hc (hn.subtreeIds_subset x hx)

/-! ### Dismissal leaves untouched subtrees alone -/


theorem dismissChildren_noop (t : Nat) :
    ∀ cs : List PopupNode, t ∉ forestIds cs → dismissChildren t cs = (cs, [])
  | [], _ => by simp [dismissChildren]
  | .mk s ccs :: rest, h => by
    simp only [forestIds, subtreeIds, List.mem_append, List.mem_cons] at h
    push_neg at h
    obtain ⟨⟨hs, hcc⟩, hrest⟩ := h
    have hst : ¬s = t := fun he => hs he.symm
    have h1 : dismissNode t (.mk s ccs) = (.mk s ccs, [], false) := by
      simp only [dismissNode, if_neg hst, dismissChildren_noop t ccs hcc]
    simp [dismissChildren, h1, dismissChildren_noop t rest hrest]

/-- The heart of the dismiss cascade: on a duplicate-free forest containing
the target (located by pre-order first-match search as node `n`), the child
loop emits exactly `n`'s bottom-up `send_done` sequence and detaches exactly
`n`'s subtree, splitting the pre-order id listing around it. -/
theorem dismissChildren_found (t : Nat) :
    ∀ cs n, (forestIds cs).Nodup → findNodeF t cs = some n →
      (dismissChildren t cs).2 = PopupNode.sendDone n ∧
      ∃ P Q, forestIds cs = P ++ subtreeIds n ++ Q ∧
        forestIds (dismissChildren t cs).1 = P ++ Q
  | [], n, _, h => by simp [findNodeF] at h
  | .mk s ccs :: rest, n, hnd, hfind => by
    have hnd' := hnd
    simp only [forestIds, subtreeIds] at hnd'
    rw [List.nodup_append, List.nodup_cons] at hnd'
    obtain ⟨⟨hsnotin, hndcc⟩, hndrest, hdisj⟩ := hnd'
    simp only [findNodeF, findNodeN] at hfind
    by_cases hs : s = t
    · simp only [if_pos hs] at hfind
      cases hfind
      refine ⟨?_, [], forestIds rest, by simp [forestIds], ?_⟩
      · simp [dismissChildren, dismissNode, if_pos hs]
      · simp only [dismissChildren, dismissNode, if_pos hs]
        rfl
    · simp only [if_neg hs] at hfind
      rcases hmatch : findNodeF t ccs with _ | n'
      · -- target not inside the first child: recurse on the rest
        rw [hmatch] at hfind
        have htnotc : t ∉ subtreeIds (.mk s ccs) := by
          simp only [subtreeIds, List.mem_cons]
          push_neg
          exact ⟨fun he => hs he.symm, findNodeF_eq_none t ccs hmatch⟩
        have h1 : dismissNode t (.mk s ccs) = (.mk s ccs, [], false) := by
          simp only [dismissNode, if_neg hs,
            dismissChildren_noop t ccs (findNodeF_eq_none t ccs hmatch)]
        obtain ⟨hnotes, P, Q, hsplit, hres⟩ :=
          dismissChildren_found t rest n hndrest hfind
        refine ⟨by simp [dismissChildren, h1, hnotes],
          subtreeIds (.mk s ccs) ++ P, Q, ?_, ?_⟩
        · simp [forestIds, hsplit]
        · simp [dismissChildren, h1, forestIds, hres]
      · -- target inside the first child's subtree
        rw [hmatch] at hfind
        cases hfind
        have htin : t ∈ forestIds ccs := findNodeF_mem hmatch
        have htnotrest : t ∉ forestIds rest := fun hin =>
          hdisj (List.mem_cons_of_mem _ htin) hin
        obtain ⟨hnotes, P, Q, hsplit, hres⟩ :=
          dismissChildren_found t ccs n hndcc hmatch
        have h1 : dismissNode t (.mk s ccs) =
            (.mk s (dismissChildren t ccs).1, (dismissChildren t ccs).2, false) := by
          simp only [dismissNode, if_neg hs]
        have h2 := dismissChildren_noop t rest htnotrest
        refine ⟨by simp [dismissChildren, h1, h2, hnotes],
          s :: P, Q ++ forestIds rest, ?_, ?_⟩
        · simp [forestIds, subtreeIds, hsplit]
        · simp [dismissChildren, h1, h2, forestIds, subtreeIds, hres]

/-- The notification of a node comes strictly after the notification of each
of its proper descendants, inside any enclosing `send_done` run. -/
theorem sendDone_last {m : PopupNode} :
    ∃ pre, PopupNode.sendDone m = pre ++ [m.surface] := by
  cases m with
  | mk s cs => exact ⟨sendDoneRev cs, by simp [PopupNode.sendDone]⟩

theorem surface_mem_sendDone (m : PopupNode) : m.surface ∈ PopupNode.sendDone m := by
  rcases sendDone_last (m := m) with ⟨pre, hpre⟩
  simp [hpre]

/-- C1: dismissing a popup present in a (duplicate-free) tree sends `done`
to exactly the popups of the matched subtree, bottom-up — each node strictly
after all of its proper descendants — with the matched node last, and then
detaches the matched subtree whole, so that none of its members remain. -/
theorem claim1_dismiss_cascade (roots : List PopupNode) (t : Nat) (n : PopupNode)
    (hnd : (forestIds roots).Nodup) (hfind : findNodeF t roots = some n) :
    (treeDismiss t roots).2 = PopupNode.sendDone n ∧
    n.surface = t ∧
    (∃ pre, (treeDismiss t roots).2 = pre ++ [t]) ∧
    (∀ x, x ∈ (treeDismiss t roots).2 ↔ x ∈ subtreeIds n) ∧
    (∀ m d c, IsNode m n → c ∈ m.children → IsNode d c →
      ∃ X Y, (treeDismiss t roots).2 = X ++ m.surface :: Y ∧ d.surface ∈ X) ∧
    (∀ x ∈ subtreeIds n, x ∉ forestIds (treeDismiss t roots).1) ∧
    (∃ P Q, forestIds roots = P ++ subtreeIds n ++ Q ∧
      forestIds (treeDismiss t roots).1 = P ++ Q) := by
  obtain ⟨hnotes, P, Q, hsplit, hres⟩ := dismissChildren_found t roots n hnd hfind
  have hsurf : n.surface = t := (findNodeF_some t roots n hfind).2
  have hnd2 : (P ++ subtreeIds n ++ Q).Nodup := hsplit ▸ hnd
  refine ⟨hnotes, hsurf, ?_, ?_, ?_, ?_, ⟨P, Q, hsplit, hres⟩⟩
  · rcases sendDone_last (m := n) with ⟨pre, hpre⟩
    exact ⟨pre, by simp only [treeDismiss]; rw [hnotes, hpre, hsurf]⟩
  · intro x
    simp only [treeDismiss]
    rw [hnotes]
    exact (sendDone_perm n).mem_iff
  · intro m d c hm hc hd
    obtain ⟨A, B, hAB⟩ := hm.sendDone_block
    cases m with
    | mk sm csm =>
      have hdm : d.surface ∈ sendDoneRev csm := by
        obtain ⟨P2, Q2, hPQ2⟩ := sendDoneRev_block (hc : c ∈ (PopupNode.mk sm csm).children)
        obtain ⟨A2, B2, hAB2⟩ := hd.sendDone_block
        simp only [PopupNode.children_mk] at hPQ2
        rw [hPQ2, hAB2]
        simp [surface_mem_sendDone d]
      refine ⟨A ++ sendDoneRev csm, B, ?_, by simp [hdm]⟩
      simp only [treeDismiss]
      rw [hnotes, hAB]
      simp [PopupNode.sendDone]
  · intro x hx hx2
    simp only [treeDismiss] at hx2
    rw [hres] at hx2
    rw [List.nodup_append] at hnd2
    obtain ⟨hndPS, hndQ, hdisj1⟩ := hnd2
    rw [List.nodup_append] at hndPS
    obtain ⟨hndP, hndS, hdisj2⟩ := hndPS
    rcases List.mem_append.mp hx2 with h | h
    · exact hdisj2 h hx
    · exact hdisj1 (List.mem_append.mpr (Or.inr hx)) h

/-- Concrete run of C1: in the tree `1 → [2 → [3, 4], 5]`, dismissing popup 2
notifies 4, 3, 2 in that order (leaves first, reverse child order, matched
node last) and leaves exactly popups 1 and 5 in the tree. -/
theorem claim1_witness :
    (treeDismiss 2 [PopupNode.mk 1 [.mk 2 [.mk 3 [], .mk 4 []], .mk 5 []]]).2 = [4, 3, 2] ∧
    forestIds (treeDismiss 2 [PopupNode.mk 1 [.mk 2 [.mk 3 [], .mk 4 []], .mk 5 []]]).1
      = [1, 5] := by
  have h := claim1_dismiss_cascade [PopupNode.mk 1 [.mk 2 [.mk 3 [], .mk 4 []], .mk 5 []]]
    2 (.mk 2 [.mk 3 [], .mk 4 []]) (by decide) rfl
  exact ⟨h.1.trans rfl, rfl⟩

/-! ### C5: manager-level dismiss_popup -/


/-- Function update at an unchanged value is the identity. -/
theorem upd_self {α : Type} (f : Nat → α) (k : Nat) : upd f k (f k) = f := by
  funext x
  by_cases h : x = k <;> simp [upd, h]

/-- Counterexample to C5 as stated: with a dead root surface,
`dismiss_popup` returns `Err(DeadResource)`, not success. -/
theorem claim5_counterexample :
    (c5DeadSys.surf 0).alive = false ∧
    (dismissPopupOp c5DeadSys 0 1).2 ≠ Except.ok () := by
  exact ⟨rfl, fun h => Except.noConfusion h⟩

/-- C5 (amended): `dismiss_popup` returns `Err(DeadResource)` when the root
surface is dead; when the root surface is alive it succeeds as a no-op both
when no tree is attached and when the target popup is absent from the
attached tree, so dismissing an already-absent popup on a live root is never
an error. -/
theorem claim5_dismiss_noop (s : Sys) (root popup : Nat) :
    ((s.surf root).alive = false → dismissPopupOp s root popup = (s, .error ())) ∧
    ((s.surf root).alive = true → s.treeAttach root = none →
      dismissPopupOp s root popup = (s, .ok ())) ∧
    (∀ tid, (s.surf root).alive = true → s.treeAttach root = some tid →
      popup ∉ forestIds (s.treeStore tid) →
      dismissPopupOp s root popup = (s, .ok ())) := by
  refine ⟨fun hdead => ?_, fun halive hatt => ?_, fun tid halive hatt habs => ?_⟩
  · simp [dismissPopupOp, hdead]
  · simp [dismissPopupOp, halive, hatt]
  · have hdm := dismissChildren_noop popup (s.treeStore tid) habs
    simp [dismissPopupOp, halive, hatt, treeDismiss, hdm, upd_self]

/-- Concrete run of the amended C5: dismissing an absent popup on a live
root with no attached tree succeeds and changes nothing. -/
theorem claim5_witness :
    dismissPopupOp { c5DeadSys with surf := fun _ => ⟨true, false, none, false, (0, 0)⟩ } 0 1
      = ({ c5DeadSys with surf := fun _ => ⟨true, false, none, false, (0, 0)⟩ }, .ok ()) :=
  (claim5_dismiss_noop _ 0 1).2.1 rfl rfl

/-! ### C7: insertion -/


/-- The source's insertion loop agrees with the spec's pre-order first-match
description, branch by branch. -/
theorem insertF_specF (p par : Nat) :
    ∀ cs : List PopupNode,
      ((insertF p par cs).2 = true → specInsertF p par cs = some (insertF p par cs).1) ∧
      ((insertF p par cs).2 = false → specInsertF p par cs = none ∧ (insertF p par cs).1 = cs)
  | [] => by simp [insertF, specInsertF]
  | .mk s ccs :: rest => by
    by_cases hs : s = par
    · constructor
      · intro _
        simp [insertF, insertN, specInsertF, specInsertN, if_pos hs]
      · intro hfalse
        simp [insertF, insertN, if_pos hs] at hfalse
    · rcases hinner : (insertF p par ccs).2 with _ | _
      · -- the first child's subtree does not accept the popup
        obtain ⟨hspecN, heqN⟩ := (insertF_specF p par ccs).2 hinner
        constructor
        · intro htrue
          simp only [insertF, insertN, if_neg hs, hinner, Bool.false_eq_true, if_false] at htrue ⊢
          obtain hspecR := (insertF_specF p par rest).1 htrue
          simp [specInsertF, specInsertN, if_neg hs, hspecN, hspecR, heqN, htrue]
        · intro hfalse
          simp only [insertF, insertN, if_neg hs, hinner, Bool.false_eq_true, if_false] at hfalse ⊢
          obtain ⟨hspecR, heqR⟩ := (insertF_specF p par rest).2 hfalse
          simp [specInsertF, specInsertN, if_neg hs, hspecN, hspecR, heqN, heqR, hfalse]
      · -- the first child's subtree accepts the popup
        obtain hspecN := (insertF_specF p par ccs).1 hinner
        constructor
        · intro _
          simp [insertF, insertN, specInsertF, specInsertN, if_neg hs, hinner, hspecN]
        · intro hfalse
          simp [insertF, insertN, if_neg hs, hinner] at hfalse

/-- Where the spec-side insertion finds no match, neither does the search. -/
theorem specF_findF_none (p par : Nat) :
    ∀ cs, specInsertF p par cs = none → findNodeF par cs = none
  | [], _ => by simp [findNodeF]
  | .mk s ccs :: rest, h => by
    by_cases hs : s = par
    · simp [specInsertF, specInsertN, if_pos hs] at h
    · simp only [specInsertF, specInsertN, if_neg hs] at h
      rcases hinner : specInsertF p par ccs with _ | ccs2
      · rw [hinner] at h
        simp only [Option.map_none'] at h
        rcases hrest : specInsertF p par rest with _ | rest2
        · have h1 : findNodeN par (.mk s ccs) = none := by
            simp only [findNodeN, if_neg hs]
            exact specF_findF_none p par ccs hinner
          simp [findNodeF, h1, specF_findF_none p par rest hrest]
        · rw [hrest] at h; simp at h
      · rw [hinner] at h; simp at h

/-- Where the spec-side insertion succeeds, the pre-order first-match node
exists, and after insertion the same search finds that node with the popup
appended as a new (leaf) last child. -/
theorem specF_findF (p par : Nat) :
    ∀ cs cs2, specInsertF p par cs = some cs2 →
      ∃ m, findNodeF par cs = some m ∧
        findNodeF par cs2 = some (.mk m.surface (m.children ++ [.mk p []]))
  | [], cs2, h => by simp [specInsertF] at h
  | .mk s ccs :: rest, cs2, h => by
    by_cases hs : s = par
    · simp only [specInsertF, specInsertN, if_pos hs] at h
      cases h
      refine ⟨.mk s ccs, ?_, ?_⟩
      · simp [findNodeF, findNodeN, if_pos hs]
      · simp [findNodeF, findNodeN, if_pos hs]
    · simp only [specInsertF, specInsertN, if_neg hs] at h
      rcases hinner : specInsertF p par ccs with _ | ccs2
      · rw [hinner] at h
        simp only [Option.map_none'] at h
        rcases hrest : specInsertF p par rest with _ | rest2
        · rw [hrest] at h; simp at h
        · rw [hrest] at h
          simp only [Option.map_some', Option.some.injEq] at h
          subst h
          obtain ⟨m, hfound, hafter⟩ := specF_findF p par rest rest2 hrest
          have hnone : findNodeN par (.mk s ccs) = none := by
            simp only [findNodeN, if_neg hs]
            exact specF_findF_none p par ccs hinner
          refine ⟨m, ?_, ?_⟩ <;> simp [findNodeF, hnone, hfound, hafter]
      · rw [hinner] at h
        simp only [Option.map_some', Option.some.injEq] at h
        subst h
        obtain ⟨m, hfound, hafter⟩ := specF_findF p par ccs ccs2 hinner
        refine ⟨m, ?_, ?_⟩ <;>
          simp [findNodeF, findNodeN, if_neg hs, hfound, hafter]

/-- Spec-side insertion permutes the id listing to the popup plus the old
ids: nothing is lost and exactly the new popup is gained. -/
theorem specF_perm (p par : Nat) :
    ∀ cs cs2, specInsertF p par cs = some cs2 →
      (forestIds cs2).Perm (p :: forestIds cs)
  | [], cs2, h => by simp [specInsertF] at h
  | .mk s ccs :: rest, cs2, h => by
    by_cases hs : s = par
    · simp only [specInsertF, specInsertN, if_pos hs] at h
      cases h
      rw [List.perm_iff_count]
      intro a
      simp [forestIds, subtreeIds, forestIds_append, List.count_append, List.count_cons]
      omega
    · simp only [specInsertF, specInsertN, if_neg hs] at h
      rcases hinner : specInsertF p par ccs with _ | ccs2
      · rw [hinner] at h
        simp only [Option.map_none'] at h
        rcases hrest : specInsertF p par rest with _ | rest2
        · rw [hrest] at h; simp at h
        · rw [hrest] at h
          simp only [Option.map_some', Option.some.injEq] at h
          subst h
          have hcount := (specF_perm p par rest rest2 hrest).count_eq
          rw [List.perm_iff_count]
          intro a
          have := hcount a
          simp only [List.count_cons] at this
          simp [forestIds, subtreeIds, List.count_append, List.count_cons, this]
          omega
      · rw [hinner] at h
        simp only [Option.map_some', Option.some.injEq] at h
        subst h
        have hcount := (specF_perm p par ccs ccs2 hinner).count_eq
        rw [List.perm_iff_count]
        intro a
        have := hcount a
        simp only [List.count_cons] at this
        simp [forestIds, subtreeIds, List.count_append, List.count_cons, this]
        omega

/-- C7: insertion is the spec's pre-order first-match algorithm — it equals
the spec-worded insertion, appends the handle as a new leaf child of the
first pre-order match of the declared parent when one exists, and otherwise
makes the handle a new root. -/
theorem claim7_insert (w : World) (p par : Nat) (roots : List PopupNode)
    (hp : (w p).parent = some par) :
    treeInsertW w p roots = specInsert p par roots ∧
    (findNodeF par roots = none → treeInsertW w p roots = roots ++ [.mk p []]) ∧
    (∀ m, findNodeF par roots = some m →
      findNodeF par (treeInsertW w p roots) =
        some (.mk m.surface (m.children ++ [.mk p []]))) := by
  have hW : treeInsertW w p roots = treeInsert p par roots := by
    simp [treeInsertW, hp]
  have heq : treeInsert p par roots = specInsert p par roots := by
    rcases hres : (insertF p par roots).2 with _ | _
    · obtain ⟨hspec, hsame⟩ := (insertF_specF p par roots).2 hres
      simp [treeInsert, specInsert, hres, hspec, hsame]
    · obtain hspec := (insertF_specF p par roots).1 hres
      simp [treeInsert, specInsert, hres, hspec]
  refine ⟨hW.trans heq, fun hnone => ?_, fun m hm => ?_⟩
  · rw [hW, heq]
    rcases hspec : specInsertF p par roots with _ | cs2
    · simp [specInsert, hspec]
    · obtain ⟨m, hfound, _⟩ := specF_findF p par roots cs2 hspec
      rw [hnone] at hfound
      cases hfound
  · rw [hW, heq]
    rcases hspec : specInsertF p par roots with _ | cs2
    · rw [specF_findF_none p par roots hspec] at hm
      cases hm
    · obtain ⟨m2, hfound, hafter⟩ := specF_findF p par roots cs2 hspec
      rw [hm] at hfound
      cases hfound
      simpa [specInsert, hspec] using hafter

/-- Concrete run of C7: inserting popup 9 (declared parent 2) into the tree
`1 → [2 → [3, 4], 5]` appends it as the new last leaf child of node 2. -/
theorem claim7_witness :
    treeInsertW
        (fun i => if i = 9 then ⟨true, true, some 2, false, (0, 0)⟩
          else ⟨true, false, none, false, (0, 0)⟩)
        9 [PopupNode.mk 1 [.mk 2 [.mk 3 [], .mk 4 []], .mk 5 []]]
      = [PopupNode.mk 1 [.mk 2 [.mk 3 [], .mk 4 [], .mk 9 []], .mk 5 []]] := by
  have h := claim7_insert
    (fun i => if i = 9 then ⟨true, true, some 2, false, (0, 0)⟩
      else ⟨true, false, none, false, (0, 0)⟩)
    9 2 [PopupNode.mk 1 [.mk 2 [.mk 3 [], .mk 4 []], .mk 5 []]] rfl
  exact h.1.trans rfl

/-! ### C8: cleanup -/


/-- Cleanup does not change a node's own surface. -/
theorem cleanupN_surface (w : World) (m : PopupNode) :
    (cleanupN w m).surface = m.surface := by
  cases m with
  | mk s cs => simp [cleanupN]

/-- What survives the recursive cleanup pass plus the liveness filter is
exactly the set of nodes whose whole ancestor path is alive: in particular a
dead node is dropped together with all of its children, live or not, and no
child is re-parented. -/
theorem treeCleanup_liveIds (w : World) :
    ∀ cs : List PopupNode,
      forestIds ((cleanupF w cs).filter (fun c => (w c.surface).alive)) = liveIdsF w cs
  | [] => by simp [cleanupF, forestIds, liveIdsF]
  | .mk s ccs :: rest => by
    rcases ha : (w s).alive with _ | _
    · simp [cleanupF, List.filter_cons, cleanupN, forestIds, subtreeIds, liveIdsF, liveIdsN,
        ha, treeCleanup_liveIds w ccs, treeCleanup_liveIds w rest]
    · simp [cleanupF, List.filter_cons, cleanupN, forestIds, subtreeIds, liveIdsF, liveIdsN,
        ha, treeCleanup_liveIds w ccs, treeCleanup_liveIds w rest]

/-- C8: after `cleanup()` no empty tree, no dead unmapped popup, and no
non-alive grab chain remains registered; each registered chain's own cleanup
hook ran; live unmapped entries and live chains are retained; and each
registered tree retains exactly the nodes whose whole ancestor path is alive
(a dead node is dropped together with its still-live children, which are not
re-parented). -/
theorem claim8_cleanup (s : Sys) :
    (∀ tid ∈ (cleanupOp s).mgrTrees, (cleanupOp s).treeStore tid ≠ []) ∧
    (∀ p ∈ (cleanupOp s).unmapped, (s.surf p).alive = true) ∧
    (∀ p ∈ s.unmapped, (s.surf p).alive = true → p ∈ (cleanupOp s).unmapped) ∧
    (∀ cid ∈ (cleanupOp s).mgrChains,
      (cleanupOp s).chainStore cid = GrabChainState.cleanup s.surf (s.chainStore cid) ∧
      ((cleanupOp s).chainStore cid).alive = true) ∧
    (∀ cid ∈ s.mgrChains,
      (GrabChainState.cleanup s.surf (s.chainStore cid)).alive = true →
      cid ∈ (cleanupOp s).mgrChains) ∧
    (∀ tid ∈ s.mgrTrees,
      forestIds ((cleanupOp s).treeStore tid) = liveIdsF s.surf (s.treeStore tid)) ∧
    (∀ tid ∈ s.mgrTrees, (cleanupOp s).treeStore tid ≠ [] → tid ∈ (cleanupOp s).mgrTrees) := by
  refine ⟨fun tid htid => ?_, fun p hp => ?_, fun p hp halive => ?_,
    fun cid hcid => ?_, fun cid hcid halive => ?_, fun tid htid => ?_, fun tid htid hne => ?_⟩
  · simp only [cleanupOp, List.mem_filter] at htid
    simp only [cleanupOp]
    intro hcontra
    rw [hcontra] at htid
    simp at htid
  · simp only [cleanupOp, List.mem_filter] at hp
    exact hp.2
  · simp only [cleanupOp, List.mem_filter]
    exact ⟨hp, halive⟩
  · simp only [cleanupOp, List.mem_filter] at hcid
    simp only [cleanupOp]
    exact ⟨by simp [hcid.1], by simpa [hcid.1] using hcid.2⟩
  · simp only [cleanupOp, List.mem_filter]
    exact ⟨hcid, by simpa [hcid] using halive⟩
  · simp only [cleanupOp]
    simp only [htid, if_pos]
    exact treeCleanup_liveIds s.surf (s.treeStore tid)
  · simp only [cleanupOp, List.mem_filter]
    simp only [cleanupOp] at hne
    refine ⟨htid, ?_⟩
    simpa using hne

/-- Concrete run of C8: the live unmapped popup is retained, the dead one
dropped; the cleaned tree keeps exactly root 2 — the dead child 3 is dropped
together with its live child 4 — and the chain holding only dead popup 3 is
unregistered. -/
theorem claim8_witness :
    1 ∈ (cleanupOp c8Ex).unmapped ∧
    forestIds ((cleanupOp c8Ex).treeStore 0) = [2] ∧
    (0 ∈ (cleanupOp c8Ex).mgrChains → False) := by
  refine ⟨(claim8_cleanup c8Ex).2.2.1 1 (by decide) rfl,
    ((claim8_cleanup c8Ex).2.2.2.2.2.1 0 (by decide)).trans rfl,
    fun hmem => ?_⟩
  have h := ((claim8_cleanup c8Ex).2.2.2.1 0 hmem).2
  rw [((claim8_cleanup c8Ex).2.2.2.1 0 hmem).1] at h
  exact absurd h (by decide)

/-! ### C6: cumulative offsets -/


theorem shiftIn_append (S : List Nat) (d : Int × Int) (a b : List (Nat × (Int × Int))) :
    shiftIn S d (a ++ b) = shiftIn S d a ++ shiftIn S d b := by
  simp [shiftIn]

theorem shiftIn_all_in {S : List Nat} (d : Int × Int) {l : List (Nat × (Int × Int))}
    (h : ∀ e ∈ l, e.1 ∈ S) : shiftIn S d l = l.map (fun e => (e.1, e.2 + d)) := by
  induction l with
  | nil => rfl
  | cons e rest ih =>
    simp only [shiftIn, List.map_cons] at ih ⊢
    rw [if_pos (h e (List.mem_cons_self _ _)), ih (fun x hx => h x (List.mem_cons_of_mem _ hx))]

theorem shiftIn_all_out {S : List Nat} (d : Int × Int) {l : List (Nat × (Int × Int))}
    (h : ∀ e ∈ l, e.1 ∉ S) : shiftIn S d l = l := by
  induction l with
  | nil => rfl
  | cons e rest ih =>
    simp only [shiftIn, List.map_cons] at ih ⊢
    rw [if_neg (h e (List.mem_cons_self _ _)), ih (fun x hx => h x (List.mem_cons_of_mem _ hx))]

/-- Shifting the starting point shifts every reported offset alike. -/
theorem iterF_shift (w : World) (d : Int × Int) :
    ∀ (loc : Int × Int) (cs : List PopupNode),
      iterF w (loc + d) cs = (iterF w loc cs).map (fun e => (e.1, e.2 + d))
  | _, [] => by simp [iterF]
  | loc, .mk s ccs :: rest => by
    have h1 : loc + d + (w s).location = loc + (w s).location + d := add_right_comm _ _ _
    simp only [iterF, iterN, List.map_append, List.map_cons]
    rw [h1, iterF_shift w d (loc + (w s).location) ccs, iterF_shift w d loc rest]

/-- The popups of the iteration are the subtree ids, in pre-order. -/
theorem iterF_ids (w : World) :
    ∀ (loc : Int × Int) (cs : List PopupNode), (iterF w loc cs).map Prod.fst = forestIds cs
  | _, [] => by simp [iterF, forestIds]
  | loc, .mk s ccs :: rest => by
    simp [iterF, iterN, forestIds, subtreeIds, iterF_ids w _ ccs, iterF_ids w loc rest]

/-- Iteration reads only the states of surfaces of the forest. -/
theorem iterF_congr (w1 w2 : World) :
    ∀ (loc : Int × Int) (cs : List PopupNode), (∀ x ∈ forestIds cs, w1 x = w2 x) →
      iterF w1 loc cs = iterF w2 loc cs
  | _, [], _ => rfl
  | loc, .mk s ccs :: rest, h => by
    have hs : w1 s = w2 s := h s (by simp [forestIds, subtreeIds])
    simp only [iterF, iterN, hs]
    rw [iterF_congr w1 w2 _ ccs (fun x hx => h x (by simp [forestIds, subtreeIds, hx])),
      iterF_congr w1 w2 loc rest (fun x hx => h x (by simp [forestIds, subtreeIds, hx]))]

/-- The offset reported for a popup is the starting point plus the sum of
the own offsets along the root-to-node path. -/
theorem iterF_pathTo (w : World) :
    ∀ (loc : Int × Int) (cs : List PopupNode) (p : Nat) (off : Int × Int),
      (p, off) ∈ iterF w loc cs ↔
        ∃ c ∈ cs, ∃ offs, PathTo w c offs p ∧ off = loc + offs.sum
  | loc, [], p, off => by simp [iterF]
  | loc, .mk s ccs :: rest, p, off => by
    simp only [iterF, iterN, List.mem_append, List.mem_cons]
    constructor
    · rintro (h | h)
      · rcases h with h | h
        · cases h
          exact ⟨.mk s ccs, Or.inl rfl, [(w s).location],
            PathTo.here s ccs, by simp⟩
        · rw [iterF_pathTo w _ ccs p off] at h
          obtain ⟨c, hc, offs, hpath, hoff⟩ := h
          exact ⟨.mk s ccs, Or.inl rfl, (w s).location :: offs,
            PathTo.there hc hpath, by simp [hoff, add_assoc]⟩
      · rw [iterF_pathTo w loc rest p off] at h
        obtain ⟨c, hc, offs, hpath, hoff⟩ := h
        exact ⟨c, Or.inr hc, offs, hpath, hoff⟩
    · rintro ⟨c, hc | hc, offs, hpath, hoff⟩
      · subst hc
        cases hpath with
        | here =>
          exact Or.inl (Or.inl (by simp [hoff]))
        | @there _ _ c2 path2 _ hc2 hpath2 =>
          refine Or.inl (Or.inr ?_)
          rw [iterF_pathTo w _ ccs p off]
          exact ⟨c2, hc2, path2, hpath2, by simp [hoff, add_assoc]⟩
      · exact Or.inr ((iterF_pathTo w loc rest p off).mpr ⟨c, hc, offs, hpath, hoff⟩)

theorem shiftIn_cons (S : List Nat) (d : Int × Int) (e : Nat × (Int × Int))
    (l : List (Nat × (Int × Int))) :
    shiftIn S d (e :: l) = (if e.1 ∈ S then (e.1, e.2 + d) else e) :: shiftIn S d l := rfl

theorem iterF_fst_mem {w : World} {loc : Int × Int} {cs : List PopupNode}
    {e : Nat × (Int × Int)} (he : e ∈ iterF w loc cs) : e.1 ∈ forestIds cs := by
  rw [← iterF_ids w loc cs]
  exact List.mem_map_of_mem Prod.fst he

/-- Changing one node's own offset shifts exactly that node's and its
descendants' reported offsets by the same vector, leaving every other
reported offset unchanged. -/
theorem iterF_updLoc (w : World) (t : Nat) (nl : Int × Int) :
    ∀ (loc : Int × Int) (cs : List PopupNode) (n : PopupNode),
      (forestIds cs).Nodup → findNodeF t cs = some n →
      iterF (updLoc w t nl) loc cs =
        shiftIn (subtreeIds n) (nl - (w t).location) (iterF w loc cs)
  | _, [], n, _, hfind => by simp [findNodeF] at hfind
  | loc, .mk s ccs :: rest, n, hnd, hfind => by
    have hnd2 : (s :: (forestIds ccs ++ forestIds rest)).Nodup := by
      simpa [forestIds, subtreeIds] using hnd
    rw [List.nodup_cons] at hnd2
    obtain ⟨hsnotin, hnd3⟩ := hnd2
    rw [List.nodup_append] at hnd3
    obtain ⟨hndcc, hndrest, hdisj⟩ := hnd3
    simp only [findNodeF, findNodeN] at hfind
    by_cases hs : s = t
    · rw [if_pos hs] at hfind
      cases hfind
      subst hs
      have hcongr1 : iterF (updLoc w s nl) (loc + nl) ccs = iterF w (loc + nl) ccs :=
        iterF_congr _ w _ ccs (fun x hx => by
          have hxs : ¬x = s := fun he =>
            hsnotin (List.mem_append.mpr (Or.inl (he ▸ hx)))
          simp [updLoc, hxs])
      have hcongr2 : iterF (updLoc w s nl) loc rest = iterF w loc rest :=
        iterF_congr _ w loc rest (fun x hx => by
          have hxs : ¬x = s := fun he =>
            hsnotin (List.mem_append.mpr (Or.inr (he ▸ hx)))
          simp [updLoc, hxs])
      have hcc : shiftIn (subtreeIds (.mk s ccs)) (nl - (w s).location)
          (iterF w (loc + (w s).location) ccs) = iterF w (loc + nl) ccs := by
        rw [shiftIn_all_in _ (fun e he => by
          simp only [subtreeIds, List.mem_cons]
          exact Or.inr (iterF_fst_mem he))]
        rw [← iterF_shift w (nl - (w s).location) (loc + (w s).location) ccs]
        congr 1
        abel
      have hrest : shiftIn (subtreeIds (.mk s ccs)) (nl - (w s).location)
          (iterF w loc rest) = iterF w loc rest :=
        shiftIn_all_out _ (fun e he hmem => by
          simp only [subtreeIds, List.mem_cons] at hmem
          rcases hmem with hmem | hmem
          · exact hsnotin (List.mem_append.mpr (Or.inr (hmem ▸ iterF_fst_mem he)))
          · exact hdisj hmem (iterF_fst_mem he))
      have hwsl : (updLoc w s nl s).location = nl := by simp [updLoc]
      simp only [iterF, iterN, hwsl]
      rw [shiftIn_append, shiftIn_cons]
      rw [if_pos (by simp [subtreeIds] : ((s : Nat), loc + (w s).location).1 ∈ subtreeIds (PopupNode.mk s ccs))]
      rw [hcc, hrest, hcongr1, hcongr2]
      have hfst : ((s, loc + (w s).location).1, (s, loc + (w s).location).2
          + (nl - (w s).location)) = ((s : Nat), loc + nl) := by
        have h9 : loc + (w s).location + (nl - (w s).location) = loc + nl := by abel
        simp [h9]
      rw [hfst]
    · rw [if_neg hs] at hfind
      rcases hmatch : findNodeF t ccs with _ | n2
      · -- the target is in the remaining roots
        rw [hmatch] at hfind
        have htncc : t ∉ forestIds ccs := findNodeF_eq_none t ccs hmatch
        have hsub : ∀ x ∈ subtreeIds n, x ∈ forestIds rest := findNodeF_sub hfind
        have hws : updLoc w t nl s = w s := by simp [updLoc, hs]
        have hcongr1 : iterF (updLoc w t nl) (loc + (w s).location) ccs
            = iterF w (loc + (w s).location) ccs :=
          iterF_congr _ w _ ccs (fun x hx => by
            have hxt : ¬x = t := fun he => htncc (he ▸ hx)
            simp [updLoc, hxt])
        have hrec := iterF_updLoc w t nl loc rest n hndrest hfind
        have hhead : ((s : Nat), loc + (w s).location).1 ∉ subtreeIds n := fun hmem =>
          hsnotin (List.mem_append.mpr (Or.inr (hsub s hmem)))
        have hcc : shiftIn (subtreeIds n) (nl - (w t).location)
            (iterF w (loc + (w s).location) ccs) = iterF w (loc + (w s).location) ccs :=
          shiftIn_all_out _ (fun e he hmem =>
            hdisj (iterF_fst_mem he) (hsub e.1 hmem))
        simp only [iterF, iterN, hws]
        rw [shiftIn_append, shiftIn_cons, if_neg hhead, hrec, hcc, hcongr1]
      · rw [hmatch] at hfind
        cases hfind
        have htin : t ∈ forestIds ccs := findNodeF_mem hmatch
        have hsub : ∀ x ∈ subtreeIds n, x ∈ forestIds ccs := findNodeF_sub hmatch
        have hws : updLoc w t nl s = w s := by simp [updLoc, hs]
        have hcongr2 : iterF (updLoc w t nl) loc rest = iterF w loc rest :=
          iterF_congr _ w loc rest (fun x hx => by
            have hxt : ¬x = t := fun he => hdisj (he ▸ htin) (he ▸ hx)
            simp [updLoc, hxt])
        have hrec := iterF_updLoc w t nl (loc + (w s).location) ccs n hndcc hmatch
        have hhead : ((s : Nat), loc + (w s).location).1 ∉ subtreeIds n := fun hmem =>
          hsnotin (List.mem_append.mpr (Or.inl (hsub s hmem)))
        have hrest : shiftIn (subtreeIds n) (nl - (w t).location) (iterF w loc rest)
            = iterF w loc rest :=
          shiftIn_all_out _ (fun e he hmem =>
            hdisj (hsub e.1 hmem) (iterF_fst_mem he))
        simp only [iterF, iterN, hws]
        rw [shiftIn_append, shiftIn_cons, if_neg hhead, hrec, hrest, hcongr2]

/-- C6: the offset reported by the with-offsets iteration (and hence by
`popups_for_surface`) is the exact vector sum of the own placement offsets
along the root-to-node path, with roots starting from zero; and changing
exactly one node's own offset shifts that node's and all its descendants'
reported offsets by the same vector, leaving all others unchanged. -/
theorem claim6_offsets (w : World) (roots : List PopupNode) (t : Nat) (n : PopupNode)
    (nl : Int × Int) (hnd : (forestIds roots).Nodup) (hfind : findNodeF t roots = some n) :
    (∀ p off, (p, off) ∈ treeIter w roots ↔
      ∃ r ∈ roots, ∃ offs, PathTo w r offs p ∧ off = offs.sum) ∧
    treeIter (updLoc w t nl) roots =
      shiftIn (subtreeIds n) (nl - (w t).location) (treeIter w roots) := by
  constructor
  · intro p off
    rw [treeIter, iterF_pathTo w (0, 0) roots p off]
    constructor
    · rintro ⟨c, hc, offs, hpath, hoff⟩
      exact ⟨c, hc, offs, hpath, by simpa using hoff⟩
    · rintro ⟨c, hc, offs, hpath, hoff⟩
      exact ⟨c, hc, offs, hpath, by simpa using hoff⟩
  · exact iterF_updLoc w t nl (0, 0) roots n hnd hfind

/-- Concrete run of C6: in the chain `1 → 2` with own offsets `(1, 2)` and
`(10, 20)`, popup 2 is reported at the path sum `(11, 22)`; changing node 1's
own offset to `(5, 6)` moves both reported offsets by `(4, 4)`. -/
theorem claim6_witness :
    treeIter
        (updLoc (fun i => ⟨true, i ≠ 0, none, false,
          if i = 1 then ((1 : Int), (2 : Int)) else if i = 2 then (10, 20) else (0, 0)⟩)
          1 (5, 6))
        [PopupNode.mk 1 [.mk 2 []]]
      = [(1, (5, 6)), (2, (15, 26))] := by
  have h := claim6_offsets
    (fun i => ⟨true, i ≠ 0, none, false,
      if i = 1 then ((1 : Int), (2 : Int)) else if i = 2 then (10, 20) else (0, 0)⟩)
    [PopupNode.mk 1 [.mk 2 []]] 1 (.mk 1 [.mk 2 []]) (5, 6) (by decide) rfl
  exact h.2.trans (by decide)

/-! ### C2, C3, C4: grab_popup -/


theorem upd_eq {α : Type} (f : Nat → α) (k : Nat) (v : α) : upd f k v k = v := by
  simp [upd]

/-- A failed chain grab leaves the chain itself unchanged. -/
theorem grab_error_state {w : World} {c : GrabChainState} {p ser : Nat} {e : PopupGrabError}
    (h : (GrabChainState.grab w c p ser).2 = .error e) :
    (GrabChainState.grab w c p ser).1 = c := by
  unfold GrabChainState.grab at h ⊢
  rcases hpar : (w p).parent with _ | par <;> simp only [hpar] at h ⊢
  rcases hl : c.grabs.getLast? with _ | tail <;> simp only [hl] at h ⊢
  · by_cases hp : (w par).isPopup = true
    · simp [hp]
    · simp [hp] at h
  · by_cases ht : tail.popup = par
    · simp [ht] at h
    · simp [ht]

/-- On an empty chain the grab never fails with `NotTheTopmostPopup`. -/
theorem grab_not_topmost_nonempty {w : World} {c : GrabChainState} {p ser : Nat}
    (h : (GrabChainState.grab w c p ser).2 = .error .notTheTopmostPopup) :
    c.grabs ≠ [] := by
  intro hc
  unfold GrabChainState.grab at h
  rcases hpar : (w p).parent with _ | par <;> simp only [hpar] at h
  · simp at h
  · simp only [hc, List.getLast?_nil] at h
    by_cases hp : (w par).isPopup = true <;> simp [hp] at h

/-- With a resolvable parent, `ParentDismissed` arises only on an empty
chain (the target would have been the first — hence root — popup of the
attempted chain). -/
theorem grab_pd_empty {w : World} {c : GrabChainState} {p ser par : Nat}
    (hpar : (w p).parent = some par)
    (h : (GrabChainState.grab w c p ser).2 = .error .parentDismissed) :
    c.grabs = [] := by
  unfold GrabChainState.grab at h
  rw [hpar] at h
  rcases hl : c.grabs.getLast? with _ | tail
  · simpa using List.getLast?_eq_none_iff.mp hl
  · rw [hl] at h
    by_cases ht : tail.popup = par <;> simp [ht] at h

/-- C2: grabbing an already-committed popup (with the earlier validation
steps passing: the focus is a popup and its root resolves) fails with
`InvalidGrab`, posts the "already mapped" protocol error on the popup's
surface, and performs no other mutation at all — in particular the seat's
chain is neither created, registered nor extended. -/
theorem claim2_grab_committed (fuel : Nat) (s : Sys) (popup serial root : Nat)
    (hroot : findPopupRootSurface s.surf fuel popup = some root)
    (hcom : (s.surf popup).committed = true) :
    grabPopup fuel s (some popup) serial =
      ({ s with events := s.events ++ [Event.errAlreadyMapped popup] },
        .error .invalidGrab) := by
  simp only [grabPopup, hroot, hcom, if_true]

/-- Concrete run of C2: grabbing committed popup 1 posts "already mapped"
and fails with `InvalidGrab`, leaving every registry untouched. -/
theorem claim2_witness :
    grabPopup 5 c2Ex (some 1) 3
      = ({ c2Ex with events := [Event.errAlreadyMapped 1] }, .error .invalidGrab) :=
  claim2_grab_committed 5 c2Ex 1 3 0 rfl rfl

/-- A freshly created chain is inactive. -/
theorem active_nil : GrabChainState.active ⟨[]⟩ = false := rfl

/-- C3: a grab rejected with `NotTheTopmostPopup` posts the "not the topmost
popup" protocol error on the offending popup's surface and returns the error
with no other state change: the chain (and the chain store), the seat slot,
the manager's grab-chain list, and all tree/unmapped state are exactly as
before the call. -/
theorem claim3_grab_not_topmost (fuel : Nat) (s : Sys) (popup serial : Nat)
    (herr : (grabPopup fuel s (some popup) serial).2 = .error .notTheTopmostPopup) :
    (grabPopup fuel s (some popup) serial).1.events
        = s.events ++ [Event.errNotTopmost popup] ∧
    (grabPopup fuel s (some popup) serial).1.mgrChains = s.mgrChains ∧
    (grabPopup fuel s (some popup) serial).1.chainStore = s.chainStore ∧
    (grabPopup fuel s (some popup) serial).1.seatChain = s.seatChain ∧
    (grabPopup fuel s (some popup) serial).1.mgrTrees = s.mgrTrees ∧
    (grabPopup fuel s (some popup) serial).1.treeStore = s.treeStore ∧
    (grabPopup fuel s (some popup) serial).1.treeAttach = s.treeAttach ∧
    (grabPopup fuel s (some popup) serial).1.unmapped = s.unmapped := by
  rcases hroot : findPopupRootSurface s.surf fuel popup with _ | root
  · exfalso
    simp [grabPopup, hroot] at herr
  · rcases hcom : (s.surf popup).committed with _ | _
    · rcases hseat : s.seatChain with _ | cid
      · -- no chain yet: the freshly created chain is empty, so the grab
        -- cannot be rejected as not-topmost
        exfalso
        simp only [grabPopup, hroot, hcom, hseat, upd_eq, active_nil, Bool.not_false, if_true, Bool.false_eq_true, if_false] at herr
        rcases hg : (GrabChainState.grab s.surf ⟨[]⟩ popup serial).2 with e | prev
        · rcases e <;> rw [hg] at herr <;> simp at herr
          exact grab_not_topmost_nonempty hg rfl
        · rw [hg] at herr
          simp at herr
      · rcases hact : (s.chainStore cid).active with _ | _
        · -- registered-on-demand case: the chain is empty, contradiction
          have hemp : (s.chainStore cid).grabs = [] := by
            simpa [GrabChainState.active, List.isEmpty_iff] using hact
          exfalso
          simp only [grabPopup, hroot, hcom, hseat, hact, Bool.not_false, if_true, Bool.false_eq_true, if_false] at herr
          rcases hg : (GrabChainState.grab s.surf (s.chainStore cid) popup serial).2
            with e | prev
          · rcases e <;> rw [hg] at herr <;> simp at herr
            exact grab_not_topmost_nonempty hg hemp
          · rw [hg] at herr
            simp at herr
        · -- active chain: error is posted, chain and registries untouched
          rcases hg : (GrabChainState.grab s.surf (s.chainStore cid) popup serial).2
            with e | prev
          · rcases e <;>
              simp only [grabPopup, hroot, hcom, hseat, hact, Bool.false_eq_true, if_false,
                Bool.not_true, hg, if_true] at herr ⊢ <;>
              try simp at herr
            have hchain := grab_error_state hg
            simp [hchain, upd_self]
          · exfalso
            simp only [grabPopup, hroot, hcom, hseat, hact, Bool.not_true, Bool.false_eq_true,
              if_false, hg] at herr
            simp at herr
    · exfalso
      simp [grabPopup, hroot, hcom] at herr

/-- Concrete run of C3: grabbing popup 2 while popup 1 is the chain's
topmost posts "not the topmost popup" on 2 and changes no registry. -/
theorem claim3_witness :
    (grabPopup 5 c3Ex (some 2) 7).1.events = c3Ex.events ++ [Event.errNotTopmost 2] ∧
    (grabPopup 5 c3Ex (some 2) 7).1.mgrChains = c3Ex.mgrChains ∧
    (grabPopup 5 c3Ex (some 2) 7).1.chainStore = c3Ex.chainStore := by
  have h := claim3_grab_not_topmost 5 c3Ex 2 7 rfl
  exact ⟨h.1, h.2.1, h.2.2.1⟩

/-- C4: a grab rejected with `ParentDismissed` runs the dismiss cascade on
the grab target at its resolved root before returning the error — and the
chain the grab was attempted on held no grabs, so the target is the sole
(hence root) popup of the attempted chain. -/
theorem claim4_grab_parent_dismissed (fuel : Nat) (s : Sys) (popup serial root tid : Nat)
    (hroot : findPopupRootSurface s.surf fuel popup = some root)
    (halive : (s.surf root).alive = true)
    (hatt : s.treeAttach root = some tid)
    (herr : (grabPopup fuel s (some popup) serial).2 = .error .parentDismissed) :
    (grabPopup fuel s (some popup) serial).1.treeStore tid
        = (treeDismiss popup (s.treeStore tid)).1 ∧
    (grabPopup fuel s (some popup) serial).1.events
        = s.events ++ (treeDismiss popup (s.treeStore tid)).2.map Event.done ∧
    (∀ cid, s.seatChain = some cid → (s.chainStore cid).grabs = []) := by
  have hpar : ∃ par, (s.surf popup).parent = some par := by
    rcases hp : (s.surf popup).parent with _ | par
    · rw [findPopupRootSurface, hp] at hroot
      simp at hroot
    · exact ⟨par, rfl⟩
  obtain ⟨par, hp⟩ := hpar
  rcases hcom : (s.surf popup).committed with _ | _
  · rcases hseat : s.seatChain with _ | cid
    · rcases hg : (GrabChainState.grab s.surf ⟨[]⟩ popup serial).2 with e | prev
      · rcases e <;>
          simp only [grabPopup, hroot, hcom, hseat, upd_eq, active_nil, Bool.not_false,
            if_true, Bool.false_eq_true, if_false, hg] at herr ⊢ <;>
          try simp at herr
        · -- ParentDismissed on the fresh empty chain
          refine ⟨?_, ?_, fun cid hcid => by cases hcid⟩
          · simp [dismissPopupOp, halive, hatt, upd_eq]
          · simp [dismissPopupOp, halive, hatt]
      · exfalso
        simp only [grabPopup, hroot, hcom, hseat, upd_eq, active_nil, Bool.not_false,
          if_true, Bool.false_eq_true, if_false, hg] at herr
        simp at herr
    · rcases hg : (GrabChainState.grab s.surf (s.chainStore cid) popup serial).2 with e | prev
      · rcases e <;>
          rcases hact : (s.chainStore cid).active with _ | _ <;>
          simp only [grabPopup, hroot, hcom, hseat, hact, Bool.false_eq_true, Bool.not_true,
            Bool.not_false, if_false, if_true, hg] at herr ⊢ <;>
          try simp at herr
        all_goals
          refine ⟨?_, ?_, fun cid2 hcid2 => ?_⟩
        · simp [dismissPopupOp, halive, hatt, upd_eq]
        · simp [dismissPopupOp, halive, hatt]
        · cases hcid2
          exact grab_pd_empty hp hg
        · simp [dismissPopupOp, halive, hatt, upd_eq]
        · simp [dismissPopupOp, halive, hatt]
        · cases hcid2
          exact grab_pd_empty hp hg
      · exfalso
        rcases hact : (s.chainStore cid).active with _ | _ <;>
          simp only [grabPopup, hroot, hcom, hseat, hact, Bool.false_eq_true, Bool.not_true,
            Bool.not_false, if_false, if_true, hg] at herr <;>
          simp at herr
  · exfalso
    simp [grabPopup, hroot, hcom] at herr

/-- Concrete run of C4: the rejected grab on popup 2 dismisses popup 2 out
of the tree rooted at 0 and emits its `done` notification before the error
returns. -/
theorem claim4_witness :
    (grabPopup 5 c4Ex (some 2) 9).1.treeStore 0 = [PopupNode.mk 1 []] ∧
    (grabPopup 5 c4Ex (some 2) 9).1.events = [Event.done 2] := by
  have h := claim4_grab_parent_dismissed 5 c4Ex 2 9 0 0 rfl rfl rfl rfl
  exact ⟨h.1.trans rfl, h.2.1.trans rfl⟩

/-! ### C10: double registration of a fresh tree -/


theorem flatMap_congr {α β : Type} {f g : α → List β} :
    ∀ {l : List α}, (∀ x ∈ l, f x = g x) → l.flatMap f = l.flatMap g
  | [], _ => rfl
  | x :: rest, h => by
    simp only [List.flatMap_cons]
    rw [h x (List.mem_cons_self _ _), flatMap_congr (fun y hy => h y (List.mem_cons_of_mem _ hy))]

theorem upd_ne {α : Type} (f : Nat → α) {k x : Nat} (v : α) (h : ¬x = k) :
    upd f k v x = f x := by
  simp [upd, h]

/-- C10: when `add_popup` resolves a root with no attached tree, the freshly
created tree is registered twice — once by the attach branch and once by the
not-alive branch (the new tree is still empty at that point) — so the
manager's tree list gains two handles to the same tree, manager-wide
iteration visits the inserted popup twice, and once the tree is dead a
`cleanup()` drops both entries. -/
theorem claim10_add_popup_double (fuel : Nat) (s : Sys) (p root : Nat)
    (hroot : findPopupRootSurface s.surf fuel p = some root)
    (hatt : s.treeAttach root = none)
    (hfresh : s.nextTreeId ∉ s.mgrTrees) :
    (addPopup fuel s p).2 = .ok () ∧
    (addPopup fuel s p).1.mgrTrees = s.mgrTrees ++ [s.nextTreeId, s.nextTreeId] ∧
    (addPopup fuel s p).1.treeAttach root = some s.nextTreeId ∧
    (addPopup fuel s p).1.treeStore s.nextTreeId = [.mk p []] ∧
    (((addPopup fuel s p).1.mgrTrees.flatMap
        (fun tid => treeIter (addPopup fuel s p).1.surf
          ((addPopup fuel s p).1.treeStore tid))).map Prod.fst).count p
      = ((s.mgrTrees.flatMap
          (fun tid => treeIter s.surf (s.treeStore tid))).map Prod.fst).count p + 2 ∧
    ((s.surf p).alive = false →
      s.nextTreeId ∉ (cleanupOp (addPopup fuel s p).1).mgrTrees) := by
  obtain ⟨par, hp⟩ : ∃ par, (s.surf p).parent = some par := by
    rcases hq : (s.surf p).parent with _ | par
    · rw [findPopupRootSurface, hq] at hroot
      simp at hroot
    · exact ⟨par, rfl⟩
  have hstore : (addPopup fuel s p).1.treeStore = upd
      (upd s.treeStore s.nextTreeId []) s.nextTreeId [.mk p []] := by
    simp only [addPopup, hroot, hatt, upd_eq, List.isEmpty_nil, if_true]
    rw [show treeInsertW s.surf p [] = [.mk p []] by
      simp [treeInsertW, hp, treeInsert, insertF]]
  have hmgr : (addPopup fuel s p).1.mgrTrees = s.mgrTrees ++ [s.nextTreeId, s.nextTreeId] := by
    simp only [addPopup, hroot, hatt, upd_eq, List.isEmpty_nil, if_true]
    simp
  have hsurf : (addPopup fuel s p).1.surf = s.surf := by
    simp only [addPopup, hroot, hatt, upd_eq, List.isEmpty_nil, if_true]
  have hstore2 : (addPopup fuel s p).1.treeStore s.nextTreeId = [.mk p []] := by
    rw [hstore, upd_eq]
  refine ⟨?_, hmgr, ?_, hstore2, ?_, fun hdead => ?_⟩
  · simp only [addPopup, hroot, hatt]
  · simp only [addPopup, hroot, hatt, upd_eq, List.isEmpty_nil, if_true]
  · rw [hmgr, hsurf, List.flatMap_append]
    have hold : s.mgrTrees.flatMap
        (fun tid => treeIter s.surf ((addPopup fuel s p).1.treeStore tid))
        = s.mgrTrees.flatMap (fun tid => treeIter s.surf (s.treeStore tid)) :=
      flatMap_congr (fun tid htid => by
        have hne : ¬tid = s.nextTreeId := fun he => hfresh (he ▸ htid)
        rw [hstore, upd_ne _ _ hne, upd_ne _ _ hne])
    rw [hold]
    simp [hstore2, List.count_append, treeIter, iterF, iterN]
  · simp only [cleanupOp, List.mem_filter, hmgr]
    rintro ⟨hmem, hpred⟩
    have hin : s.nextTreeId ∈ s.mgrTrees ++ [s.nextTreeId, s.nextTreeId] := by simp
    rw [if_pos hin, hsurf, hstore2] at hpred
    simp [treeCleanup, cleanupF, cleanupN, hdead] at hpred

/-- Concrete run of C10: adding popup 1 to the fresh root registers tree 0
twice and the manager-wide iteration reports popup 1 twice. -/
theorem claim10_witness :
    (addPopup 5 c10Ex 1).1.mgrTrees = [0, 0] ∧
    (((addPopup 5 c10Ex 1).1.mgrTrees.flatMap
        (fun tid => treeIter (addPopup 5 c10Ex 1).1.surf
          ((addPopup 5 c10Ex 1).1.treeStore tid))).map Prod.fst).count 1 = 2 := by
  have h := claim10_add_popup_double 5 c10Ex 1 0 rfl rfl (by decide)
  exact ⟨h.2.1, by rw [h.2.2.2.2.1]; rfl⟩

/-! ### C9: find_popup over track/commit histories -/


/-- Inserting keeps every id and gains exactly the inserted popup. -/
theorem treeInsert_perm (p par : Nat) (cs : List PopupNode) :
    (forestIds (treeInsert p par cs)).Perm (p :: forestIds cs) := by
  rcases hres : (insertF p par cs).2 with _ | _
  · obtain ⟨hspec, hsame⟩ := (insertF_specF p par cs).2 hres
    simp only [treeInsert, hres, Bool.false_eq_true, if_false, hsame, forestIds_append]
    have h1 : forestIds [PopupNode.mk p []] = [p] := by simp [forestIds, subtreeIds]
    rw [h1]
    exact List.perm_append_comm
  · obtain hspec := (insertF_specF p par cs).1 hres
    have hs2 : specInsertF p par cs = some (insertF p par cs).1 := hspec
    have := specF_perm p par cs (insertF p par cs).1 hs2
    simpa [treeInsert, hres] using this

/-- A successful attach keeps the ambient state and the unmapped list,
maintains the tree-registry invariant, keeps every reachable popup
reachable, and makes the attached popup reachable. -/
theorem addPopup_ok (fuel : Nat) (s : Sys) (p root : Nat)
    (hroot : findPopupRootSurface s.surf fuel p = some root)
    (hinv : TreeInv s) :
    (addPopup fuel s p).1.surf = s.surf ∧
    (addPopup fuel s p).1.unmapped = s.unmapped ∧
    TreeInv (addPopup fuel s p).1 ∧
    (∀ q, Present s q → Present (addPopup fuel s p).1 q) ∧
    Present (addPopup fuel s p).1 p := by
  obtain ⟨hfresh, hattlt, hmgrlt, hattreg⟩ := hinv
  obtain ⟨par, hp⟩ : ∃ par, (s.surf p).parent = some par := by
    rcases hq : (s.surf p).parent with _ | par
    · rw [findPopupRootSurface, hq] at hroot
      simp at hroot
    · exact ⟨par, rfl⟩
  have hins : treeInsertW s.surf p = treeInsert p par := by
    funext cs
    simp [treeInsertW, hp]
  rcases hatt : s.treeAttach root with _ | tid
  · -- fresh tree: attach, double-register, insert
    have hred : (addPopup fuel s p).1 =
        { s with
          treeAttach := upd s.treeAttach root (some s.nextTreeId)
          treeStore := upd (upd s.treeStore s.nextTreeId []) s.nextTreeId
            (treeInsert p par [])
          nextTreeId := s.nextTreeId + 1
          mgrTrees := s.mgrTrees ++ [s.nextTreeId] ++ [s.nextTreeId] } := by
      simp only [addPopup, hroot, hatt, upd_eq, List.isEmpty_nil, if_true, hins]
    have hSt : (addPopup fuel s p).1.treeStore
        = upd (upd s.treeStore s.nextTreeId []) s.nextTreeId (treeInsert p par []) := by
      rw [hred]
    have hAt : (addPopup fuel s p).1.treeAttach
        = upd s.treeAttach root (some s.nextTreeId) := by
      rw [hred]
    have hNx : (addPopup fuel s p).1.nextTreeId = s.nextTreeId + 1 := by
      rw [hred]
    have hMg : (addPopup fuel s p).1.mgrTrees
        = s.mgrTrees ++ [s.nextTreeId] ++ [s.nextTreeId] := by
      rw [hred]
    have hUn : (addPopup fuel s p).1.unmapped = s.unmapped := by
      rw [hred]
    refine ⟨by rw [hred], hUn, ⟨?_, ?_, ?_, ?_⟩, ?_, ?_⟩
    · intro tid2 h2
      rw [hNx] at h2
      rw [hSt, upd_ne _ _ (by omega : ¬tid2 = s.nextTreeId),
        upd_ne _ _ (by omega : ¬tid2 = s.nextTreeId)]
      exact hfresh tid2 (by omega)
    · intro root2 tid2 h2
      rw [hAt] at h2
      rw [hNx]
      by_cases hr : root2 = root
      · subst hr
        rw [upd_eq] at h2
        cases h2
        omega
      · rw [upd_ne _ _ hr] at h2
        have := hattlt root2 tid2 h2
        omega
    · intro tid2 h2
      rw [hMg] at h2
      rw [hNx]
      simp only [List.mem_append, List.mem_singleton] at h2
      rcases h2 with (h2 | h2) | h2
      · have := hmgrlt tid2 h2
        omega
      · omega
      · omega
    · intro root2 tid2 h2 hne
      rw [hAt] at h2
      rw [hSt] at hne
      rw [hMg]
      by_cases hr : root2 = root
      · subst hr
        rw [upd_eq] at h2
        cases h2
        simp
      · rw [upd_ne _ _ hr] at h2
        have hlt := hattlt root2 tid2 h2
        rw [upd_ne _ _ (by omega : ¬tid2 = s.nextTreeId),
          upd_ne _ _ (by omega : ¬tid2 = s.nextTreeId)] at hne
        simp only [List.mem_append, List.mem_singleton]
        exact Or.inl (Or.inl (hattreg root2 tid2 h2 hne))
    · rintro q (hq | ⟨tid2, htid2, hq⟩)
      · exact Or.inl (hUn ▸ hq)
      · refine Or.inr ⟨tid2, by rw [hMg]; simp [htid2], ?_⟩
        have hlt := hmgrlt tid2 htid2
        rw [hSt, upd_ne _ _ (by omega : ¬tid2 = s.nextTreeId),
          upd_ne _ _ (by omega : ¬tid2 = s.nextTreeId)]
        exact hq
    · refine Or.inr ⟨s.nextTreeId, by rw [hMg]; simp, ?_⟩
      rw [hSt, upd_eq]
      exact (treeInsert_perm p par []).mem_iff.mpr (List.mem_cons_self _ _)
  · -- existing tree
    have htidlt := hattlt root tid hatt
    rcases hemp : (s.treeStore tid).isEmpty with _ | _
    · -- attached, alive: insert in place
      have hne2 : s.treeStore tid ≠ [] := by
        simpa [List.isEmpty_iff] using hemp
      have hreg := hattreg root tid hatt hne2
      have hred : (addPopup fuel s p).1 =
          { s with
            treeStore := upd s.treeStore tid (treeInsert p par (s.treeStore tid)) } := by
        simp only [addPopup, hroot, hatt, hemp, Bool.false_eq_true, if_false, hins]
      have hSt : (addPopup fuel s p).1.treeStore
          = upd s.treeStore tid (treeInsert p par (s.treeStore tid)) := by
        rw [hred]
      have hAt : (addPopup fuel s p).1.treeAttach = s.treeAttach := by
        rw [hred]
      have hNx : (addPopup fuel s p).1.nextTreeId = s.nextTreeId := by
        rw [hred]
      have hMg : (addPopup fuel s p).1.mgrTrees = s.mgrTrees := by
        rw [hred]
      have hUn : (addPopup fuel s p).1.unmapped = s.unmapped := by
        rw [hred]
      refine ⟨by rw [hred], hUn, ⟨?_, ?_, ?_, ?_⟩, ?_, ?_⟩
      · intro tid2 h2
        rw [hNx] at h2
        rw [hSt, upd_ne _ _ (by omega : ¬tid2 = tid)]
        exact hfresh tid2 h2
      · intro root2 tid2 h2
        rw [hAt] at h2
        rw [hNx]
        exact hattlt root2 tid2 h2
      · intro tid2 h2
        rw [hMg] at h2
        rw [hNx]
        exact hmgrlt tid2 h2
      · intro root2 tid2 h2 hne
        rw [hAt] at h2
        rw [hSt] at hne
        rw [hMg]
        by_cases ht : tid2 = tid
        · subst ht
          exact hreg
        · rw [upd_ne _ _ ht] at hne
          exact hattreg root2 tid2 h2 hne
      · rintro q (hq | ⟨tid2, htid2, hq⟩)
        · exact Or.inl (hUn ▸ hq)
        · refine Or.inr ⟨tid2, by rw [hMg]; exact htid2, ?_⟩
          rw [hSt]
          by_cases ht : tid2 = tid
          · subst ht
            rw [upd_eq]
            exact (treeInsert_perm p par _).mem_iff.mpr (List.mem_cons_of_mem _ hq)
          · rw [upd_ne _ _ ht]
            exact hq
      · refine Or.inr ⟨tid, by rw [hMg]; exact hreg, ?_⟩
        rw [hSt, upd_eq]
        exact (treeInsert_perm p par _).mem_iff.mpr (List.mem_cons_self _ _)
    · -- attached but dead (empty): re-register, then insert
      have hred : (addPopup fuel s p).1 =
          { s with
            treeStore := upd s.treeStore tid (treeInsert p par (s.treeStore tid))
            mgrTrees := s.mgrTrees ++ [tid] } := by
        simp only [addPopup, hroot, hatt, hemp, if_true, hins]
      have hSt : (addPopup fuel s p).1.treeStore
          = upd s.treeStore tid (treeInsert p par (s.treeStore tid)) := by
        rw [hred]
      have hAt : (addPopup fuel s p).1.treeAttach = s.treeAttach := by
        rw [hred]
      have hNx : (addPopup fuel s p).1.nextTreeId = s.nextTreeId := by
        rw [hred]
      have hMg : (addPopup fuel s p).1.mgrTrees = s.mgrTrees ++ [tid] := by
        rw [hred]
      have hUn : (addPopup fuel s p).1.unmapped = s.unmapped := by
        rw [hred]
      refine ⟨by rw [hred], hUn, ⟨?_, ?_, ?_, ?_⟩, ?_, ?_⟩
      · intro tid2 h2
        rw [hNx] at h2
        rw [hSt, upd_ne _ _ (by omega : ¬tid2 = tid)]
        exact hfresh tid2 h2
      · intro root2 tid2 h2
        rw [hAt] at h2
        rw [hNx]
        exact hattlt root2 tid2 h2
      · intro tid2 h2
        rw [hMg] at h2
        rw [hNx]
        simp only [List.mem_append, List.mem_singleton] at h2
        rcases h2 with h2 | h2
        · exact hmgrlt tid2 h2
        · subst h2
          exact htidlt
      · intro root2 tid2 h2 hne
        rw [hAt] at h2
        rw [hMg]
        by_cases ht : tid2 = tid
        · subst ht
          simp
        · rw [hSt, upd_ne _ _ ht] at hne
          simp only [List.mem_append, List.mem_singleton]
          exact Or.inl (hattreg root2 tid2 h2 hne)
      · rintro q (hq | ⟨tid2, htid2, hq⟩)
        · exact Or.inl (hUn ▸ hq)
        · refine Or.inr ⟨tid2, by rw [hMg]; simp [htid2], ?_⟩
          rw [hSt]
          by_cases ht : tid2 = tid
          · subst ht
            rw [upd_eq]
            exact (treeInsert_perm p par _).mem_iff.mpr (List.mem_cons_of_mem _ hq)
          · rw [upd_ne _ _ ht]
            exact hq
      · refine Or.inr ⟨tid, by rw [hMg]; simp, ?_⟩
        rw [hSt, upd_eq]
        exact (treeInsert_perm p par _).mem_iff.mpr (List.mem_cons_self _ _)

/-- Running a history whose tracked popups all have resolvable roots keeps
the registry invariant, keeps the unmapped list empty, keeps every reachable
popup reachable and makes every tracked popup reachable. -/
theorem execOps_inv (fuel : Nat) :
    ∀ (ops : List POp) (s : Sys), TreeInv s → s.unmapped = [] →
      (∀ p ∈ trackedPopups ops, ∃ r, findPopupRootSurface s.surf fuel p = some r) →
      (execOps fuel s ops).surf = s.surf ∧
      TreeInv (execOps fuel s ops) ∧
      (execOps fuel s ops).unmapped = [] ∧
      (∀ q, Present s q → Present (execOps fuel s ops) q) ∧
      (∀ p ∈ trackedPopups ops, Present (execOps fuel s ops) p)
  | [], s, hinv, hun, _ => ⟨rfl, hinv, hun, fun _ h => h, by simp [trackedPopups]⟩
  | .track p :: rest, s, hinv, hun, hres => by
    obtain ⟨r, hr⟩ := hres p (by simp [trackedPopups])
    have hpar : (s.surf p).parent.isSome = true := by
      rcases hq : (s.surf p).parent with _ | par
      · rw [findPopupRootSurface, hq] at hr
        simp at hr
      · rfl
    have happ : applyOp fuel s (.track p) = (addPopup fuel s p).1 := by
      simp [applyOp, trackPopup, hpar]
    obtain ⟨hsurf, hunm, hinv2, hpres, hpP⟩ := addPopup_ok fuel s p r hr hinv
    have hres2 : ∀ q ∈ trackedPopups rest,
        ∃ r2, findPopupRootSurface (addPopup fuel s p).1.surf fuel q = some r2 := by
      intro q hq
      rw [hsurf]
      exact hres q (by simp [trackedPopups, hq])
    obtain ⟨hsurf3, hinv3, hun3, hpres3, htr3⟩ :=
      execOps_inv fuel rest (addPopup fuel s p).1 hinv2 (hunm.trans hun) hres2
    have hstep : execOps fuel s (.track p :: rest)
        = execOps fuel (addPopup fuel s p).1 rest := by
      rw [execOps, happ]
    rw [hstep]
    refine ⟨hsurf3.trans hsurf, hinv3, hun3, fun q hq => hpres3 q (hpres q hq), ?_⟩
    intro q hq
    simp only [trackedPopups, List.mem_cons] at hq
    rcases hq with rfl | hq
    · exact hpres3 q hpP
    · exact htr3 q hq
  | .commit c :: rest, s, hinv, hun, hres => by
    have happ : applyOp fuel s (.commit c) = s := by
      simp [applyOp, commitOp, hun]
    have hstep : execOps fuel s (.commit c :: rest) = execOps fuel s rest := by
      rw [execOps, happ]
    rw [hstep]
    exact execOps_inv fuel rest s hinv hun (fun q hq => hres q (by simp [trackedPopups, hq]))

/-- C9 (amended): `find_popup` is a read-only query returning the matching
handle; it succeeds exactly when the surface is staged in the unmapped list
or present in some registered tree (searched in that order); and over any
track/commit history whose tracked popups have resolvable roots, every
tracked popup — live or dead — is found. -/
theorem claim9_find_popup (fuel : Nat) (w : World) (ops : List POp)
    (hres : ∀ p ∈ trackedPopups ops, ∃ r, findPopupRootSurface w fuel p = some r) :
    (∀ (s : Sys) (surface q : Nat), findPopup s surface = some q → q = surface) ∧
    (∀ (s : Sys) (surface : Nat), (findPopup s surface).isSome = true ↔
      (surface ∈ s.unmapped ∨ ∃ tid ∈ s.mgrTrees, surface ∈ forestIds (s.treeStore tid))) ∧
    (∀ p ∈ trackedPopups ops, findPopup (execOps fuel (initSys w) ops) p = some p) := by
  have partA : ∀ (s : Sys) (surface q : Nat), findPopup s surface = some q → q = surface := by
    intro s surface q h
    unfold findPopup at h
    rcases h1 : s.unmapped.find? (fun p2 => p2 = surface) with _ | p2
    · rw [h1] at h
      rcases h2 : (s.mgrTrees.flatMap (fun tid => treeIter s.surf (s.treeStore tid))).find?
          (fun e => e.1 = surface) with _ | e
      · rw [h2] at h
        simp at h
      · rw [h2] at h
        simp only [Option.map_some', Option.some.injEq] at h
        have := List.find?_some h2
        simp only [decide_eq_true_eq] at this
        rw [← h]
        exact this
    · rw [h1] at h
      cases h
      have := List.find?_some h1
      simpa using this
  have partB : ∀ (s : Sys) (surface : Nat), (findPopup s surface).isSome = true ↔
      (surface ∈ s.unmapped ∨ ∃ tid ∈ s.mgrTrees, surface ∈ forestIds (s.treeStore tid)) := by
    intro s surface
    constructor
    · intro h
      obtain ⟨q, hq⟩ := Option.isSome_iff_exists.mp h
      unfold findPopup at hq
      rcases h1 : s.unmapped.find? (fun p2 => p2 = surface) with _ | p2
      · rw [h1] at hq
        rcases h2 : (s.mgrTrees.flatMap (fun tid => treeIter s.surf (s.treeStore tid))).find?
            (fun e => e.1 = surface) with _ | e
        · rw [h2] at hq
          simp at hq
        · have hmem := List.mem_of_find?_eq_some h2
          have hpred := List.find?_some h2
          simp only [decide_eq_true_eq] at hpred
          obtain ⟨tid, htid, he⟩ := List.mem_flatMap.mp hmem
          exact Or.inr ⟨tid, htid, hpred ▸ iterF_fst_mem he⟩
      · have hmem := List.mem_of_find?_eq_some h1
        have hpred := List.find?_some h1
        simp only [decide_eq_true_eq] at hpred
        exact Or.inl (hpred ▸ hmem)
    · intro h
      rcases h1 : s.unmapped.find? (fun p2 => p2 = surface) with _ | p2
      · rcases h with hun | ⟨tid, htid, hmem⟩
        · exfalso
          have := List.find?_eq_none.mp h1 surface hun
          simp at this
        · have : surface ∈ (treeIter s.surf (s.treeStore tid)).map Prod.fst :=
            (iterF_ids s.surf (0, 0) (s.treeStore tid)) ▸ hmem
          obtain ⟨e, he, hfst⟩ := List.mem_map.mp this
          have hflat : e ∈ s.mgrTrees.flatMap (fun tid2 => treeIter s.surf (s.treeStore tid2)) :=
            List.mem_flatMap.mpr ⟨tid, htid, he⟩
          have hsome : ((s.mgrTrees.flatMap
              (fun tid2 => treeIter s.surf (s.treeStore tid2))).find?
              (fun e2 => e2.1 = surface)).isSome = true := by
            rw [List.find?_isSome]
            exact ⟨e, hflat, by simp [hfst]⟩
          unfold findPopup
          rw [h1]
          simpa using hsome
      · unfold findPopup
        rw [h1]
        rfl
  refine ⟨partA, partB, ?_⟩
  intro p hp
  have hinv0 : TreeInv (initSys w) :=
    ⟨fun _ _ => rfl, fun _ _ h => by simp [initSys] at h, fun _ h => by simp [initSys] at h,
      fun _ _ h => by simp [initSys] at h⟩
  obtain ⟨hsurf, hinv, hun, hpres, htr⟩ :=
    execOps_inv fuel ops (initSys w) hinv0 rfl (by
      intro q hq
      exact hres q hq)
  have hP := htr p hp
  have hsome : (findPopup (execOps fuel (initSys w) ops) p).isSome = true := by
    rw [partB]
    exact hP
  obtain ⟨q, hq⟩ := Option.isSome_iff_exists.mp hsome
  rw [hq, partA _ p q hq]

/-- Counterexample to C9 as stated: after tracking the dead popup 1 (its
parent chain resolves to root 0), `find_popup` returns it even though it is
dead — "never returns a dead one" fails; dead entries stay findable until
`cleanup()`. -/
theorem claim9_counterexample :
    ((execOps 5 (initSys c9DeadW) [POp.track 1]).surf 1).alive = false ∧
    findPopup (execOps 5 (initSys c9DeadW) [POp.track 1]) 1 = some 1 :=
  ⟨rfl, rfl⟩

/-- Concrete run of the amended C9: after tracking popups 1 and 2, both are
found. -/
theorem claim9_witness :
    findPopup (execOps 5 (initSys c9LiveW) [POp.track 1, POp.track 2]) 2 = some 2 :=
  (claim9_find_popup 5 c9LiveW [POp.track 1, POp.track 2] (by
    intro p hp
    simp only [trackedPopups, List.mem_cons, List.not_mem_nil, or_false] at hp
    rcases hp with rfl | rfl
    · exact ⟨0, rfl⟩
    · exact ⟨0, rfl⟩)).2.2 2 (by simp [trackedPopups])

end PopupSpec
